import Mathlib

/-!
Verification of the crawl-and-audit pipeline of axe-auto-reporter-web.

This file gives a shallow embedding, in Lean, of the pipeline pieces the
specification talks about:

* the sitemap resolver (`script/generate-url-list.mjs`): `extractLocation`,
  `normalizeToArray`, `isHttpUrl`, `collectUrlsFromSitemap`;
* the per-domain rate limiter of the audit runner (`processUrlWithRateLimit`,
  `domainQueues`, `domainLastRequest`), modelled as a small-step state machine;
* the per-URL audit executor (`processUrl` with its try/catch/finally) and the
  `Promise.allSettled` scheduler;
* the URL security filter (`isIpInCidr`, `isUrlAllowed`);
* the filename derivation (`script/utils/filename.mjs`: `generateBaseFilename`);
* the reports-index reconciliation (`src/server/reports.ts`: `ensureReportsIndex`).

External platform capabilities (the WHATWG `URL` parser, `fetch`, `path.resolve`,
the filesystem, SHA-1, Unicode NFKD normalization, `net.isIP`) are passed in as
function parameters; theorems quantify over them or pin their values on the
concrete inputs used.  JavaScript numbers appearing in the embedded code are
modelled as `Nat`/`Int` with explicit reductions modulo `2 ^ 32` where the code
relies on 32-bit bitwise semantics; the JavaScript `NaN` outcome of `parseInt` /
`Number` is modelled as `Option.none`.
-/

/- ====================================================================
   JavaScript string and number primitives

   The embedded code manipulates JavaScript strings and numbers.  The
   corresponding primitives are modelled here on the character list of a
   Lean `String`, so that every embedded function is computable by the
   kernel.  `jsParseInt`/`jsNumber` model the JavaScript conversions on
   the canonical inputs exercised by the program (decimal and
   hexadecimal digit strings); the `NaN` outcome is `none`.
   ==================================================================== -/

/-- Characters removed by `String.prototype.trim` (whitespace model). -/
def isJsWhitespace (c : Char) : Bool := c.isWhitespace

/-- `trim` on a character list: drop whitespace from both ends. -/
def trimData (l : List Char) : List Char :=
  ((l.dropWhile isJsWhitespace).reverse.dropWhile isJsWhitespace).reverse

/-- Models `String.prototype.trim`. -/
def jsTrim (s : String) : String := ⟨trimData s.data⟩

/-- Whether the first list is an initial segment of the second. -/
def beginsWithData : List Char → List Char → Bool
  | [], _ => true
  | _ :: _, [] => false
  | p :: ps, c :: cs => p == c && beginsWithData ps cs

/-- Models `String.prototype.startsWith`. -/
def jsStartsWith (s pat : String) : Bool := beginsWithData pat.data s.data

/-- Models `String.prototype.endsWith`. -/
def jsEndsWith (s pat : String) : Bool := beginsWithData pat.data.reverse s.data.reverse

/-- Models `String.prototype.includes` for a one-character needle. -/
def jsContainsChar (s : String) (c : Char) : Bool := s.data.any (fun d => d == c)

/-- Models `String.prototype.toLowerCase` (ASCII range; every string it is
applied to below is ASCII). -/
def jsToLower (s : String) : String := ⟨s.data.map Char.toLower⟩

/-- `split` on a one-character separator, on character lists.  Splitting the
empty list yields one empty field, like JavaScript `"".split(c)`. -/
def splitOnCharData (sep : Char) : List Char → List (List Char)
  | [] => [[]]
  | c :: cs =>
    if c == sep then [] :: splitOnCharData sep cs
    else
      match splitOnCharData sep cs with
      | [] => [[c]]
      | g :: gs => (c :: g) :: gs

/-- Models `String.prototype.split` with a one-character separator. -/
def jsSplitChar (s : String) (sep : Char) : List String :=
  (splitOnCharData sep s.data).map (fun l => ⟨l⟩)

/-- Models `String.prototype.padStart(n, c)`. -/
def jsPadStart (s : String) (n : Nat) (c : Char) : String :=
  ⟨List.replicate (n - s.data.length) c ++ s.data⟩

/-- Models `String.prototype.slice(0, n)` / `substring(0, n)`. -/
def jsTake (s : String) (n : Nat) : String := ⟨s.data.take n⟩

/-- Models `String.prototype.length` (as a code-point count). -/
def jsLength (s : String) : Nat := s.data.length

/-- Value of a decimal digit string. -/
def digitsToNat (l : List Char) : Nat :=
  l.foldl (fun acc c => acc * 10 + (c.toNat - 48)) 0

/-- Shared core of `jsParseInt`: take the leading digit run after the sign. -/
def jsParseIntCore (neg : Bool) (l : List Char) : Option Int :=
  let ds := l.takeWhile Char.isDigit
  if ds.isEmpty then none
  else some (if neg then -(digitsToNat ds : Int) else (digitsToNat ds : Int))

/-- Models `parseInt(s, 10)`: trim, optional sign, value of the leading digit
run, `NaN` (`none`) when there is none. -/
def jsParseInt (s : String) : Option Int :=
  match trimData s.data with
  | '-' :: rest => jsParseIntCore true rest
  | '+' :: rest => jsParseIntCore false rest
  | l => jsParseIntCore false l

/-- Hexadecimal digit test. -/
def isHexDigit (c : Char) : Bool :=
  c.isDigit || ('a' ≤ c && c ≤ 'f') || ('A' ≤ c && c ≤ 'F')

/-- Value of a hexadecimal digit. -/
def hexDigitVal (c : Char) : Nat :=
  if c.isDigit then c.toNat - 48
  else if 'a' ≤ c && c ≤ 'f' then c.toNat - 87
  else c.toNat - 55

/-- Value of a hexadecimal digit string. -/
def hexToNat (l : List Char) : Nat :=
  l.foldl (fun acc c => acc * 16 + hexDigitVal c) 0

/-- Models `parseInt(s, 16)` on the sign-free inputs it receives here: value
of the leading hexadecimal digit run, `NaN` (`none`) when there is none. -/
def jsParseHex (s : String) : Option Nat :=
  let ds := (trimData s.data).takeWhile isHexDigit
  if ds.isEmpty then none else some (hexToNat ds)

/-- Models the `Number(s)` coercion on the inputs exercised here: the empty
(or all-whitespace) string is `0`, a nonnegative decimal digit string has its
value, anything else is treated as `NaN` (`none`).  The hypotheses of every
theorem below keep the inputs inside this domain. -/
def jsNumber (s : String) : Option Int :=
  let t := trimData s.data
  if t.isEmpty then some 0
  else if t.all Char.isDigit then some (digitsToNat t : Int)
  else none

/-- Decidable equality for `Except`, used to evaluate resolution outcomes on
concrete inputs. -/
instance {ε α : Type} [DecidableEq ε] [DecidableEq α] : DecidableEq (Except ε α) := fun x y =>
  match x, y with
  | .ok a, .ok b =>
    if h : a = b then .isTrue (by rw [h]) else .isFalse (fun hc => h (by injection hc))
  | .error a, .error b =>
    if h : a = b then .isTrue (by rw [h]) else .isFalse (fun hc => h (by injection hc))
  | .ok _, .error _ => .isFalse (fun hc => Except.noConfusion hc)
  | .error _, .ok _ => .isFalse (fun hc => Except.noConfusion hc)

/- ====================================================================
   Sitemap resolver (script/generate-url-list.mjs)
   ==================================================================== -/

/-- One entry of the parsed sitemap XML, as consumed by `extractLocation`:
`nullE` is a null/absent entry, `strE` a plain string entry, and `objE` an
object entry with optional `loc` and `url` fields. -/
inductive SmEntry where
  | nullE : SmEntry
  | strE (s : String) : SmEntry
  | objE (loc : Option String) (url : Option SmEntry) : SmEntry

/-- JavaScript truthiness for an optional string: `null`/`undefined` and the
empty string are falsy. -/
def truthyStr : Option String → Option String
  | some s => if s = "" then none else some s
  | none => none

/-- Embeds `extractLocation` of generate-url-list.mjs: a string entry is
trimmed; an object entry yields its truthy `loc` (trimmed), else recurses into
its `url` field; anything else yields null. -/
def extractLocation : SmEntry → Option String
  | .nullE => none
  | .strE s => some (jsTrim s)
  | .objE l u =>
    match truthyStr l with
    | some s => some (jsTrim s)
    | none =>
      match u with
      | some e => extractLocation e
      | none => none

/-- A field of the parsed XML that may be absent, a single node, or an array
of nodes (fast-xml-parser collapses one-element lists). -/
inductive NodeVal (α : Type) where
  | missing : NodeVal α
  | single (a : α) : NodeVal α
  | many (xs : List α) : NodeVal α

/-- Embeds `normalizeToArray`: a falsy value becomes `[]`, an array stays, a
single value becomes a one-element array. -/
def normalizeToArray {α : Type} : NodeVal α → List α
  | .missing => []
  | .single a => [a]
  | .many xs => xs

/-- The parse of one fetched sitemap document: `urlset` holds the `urlset.url`
field when the document is a leaf sitemap, `sitemapindex` holds the
`sitemapindex.sitemap` field when it is an index. -/
structure ParsedXml where
  urlset : Option (NodeVal SmEntry)
  sitemapindex : Option (NodeVal SmEntry)

/-- The reachable web of sitemaps: an association list from sitemap URL to its
parsed document.  A URL with no binding models a failing `fetch` (non-ok HTTP
status), which the script turns into a thrown error. -/
abbrev SitemapWorld := List (String × ParsedXml)

/-- Embeds `isHttpUrl` (and the identical `isValidUrl` of the audit runner):
the trimmed value must be nonempty, start with `http://` or `https://`, and be
accepted by the external WHATWG URL parser `urlParses`. -/
def isHttpUrl (urlParses : String → Bool) (value : String) : Bool :=
  let trimmed := jsTrim value
  if trimmed = "" then false
  else if !(jsStartsWith trimmed "http://" || jsStartsWith trimmed "https://") then false
  else urlParses trimmed

/-- The error outcomes of a resolution: `fetchFail` models the thrown
`Failed to fetch sitemap` error; `fuelOut` marks recursion-budget exhaustion of
the embedding (the termination theorem shows it never occurs once the budget
exceeds the number of sitemaps in the world). -/
inductive CollectErr where
  | fetchFail (url : String)
  | fuelOut
deriving DecidableEq

/-- Embeds the `urlset` loop of `collectUrlsFromSitemap`: walk the entries,
stop at the limit, and push each truthy, http(s), not-yet-collected location. -/
def addUrlsetLocs (urlParses : String → Bool) (limit : Nat) :
    List SmEntry → List String → List String
  | [], collected => collected
  | e :: es, collected =>
    if limit ≤ collected.length then collected
    else
      match extractLocation e with
      | some l =>
        if l != "" && isHttpUrl urlParses l && !(collected.contains l) then
          addUrlsetLocs urlParses limit es (collected ++ [l])
        else
          addUrlsetLocs urlParses limit es collected
      | none => addUrlsetLocs urlParses limit es collected

/-- Embeds the `sitemapindex` loop of `collectUrlsFromSitemap`: for each child
entry, stop at the limit, skip falsy locations, skip unresolvable or non-http
resolved URLs, and continue with the state left by the recursive resolution of
the child.  The recursive resolution itself is abstracted as `recurse`, which
`collectUrlsFromSitemap` instantiates with itself at the smaller budget. -/
def collectChildSitemaps
    (recurse : String → Nat → List String → List String →
      Except CollectErr (List String × List String))
    (resolveU : String → String → Option String) (urlParses : String → Bool)
    (baseUrl : String) (limit : Nat) :
    List String → List String → List SmEntry →
    Except CollectErr (List String × List String)
  | visited, collected, [] => .ok (visited, collected)
  | visited, collected, child :: rest =>
    if limit ≤ collected.length then .ok (visited, collected)
    else
      match truthyStr (extractLocation child) with
      | none => collectChildSitemaps recurse resolveU urlParses baseUrl limit visited collected rest
      | some location =>
        match resolveU baseUrl location with
        | none => collectChildSitemaps recurse resolveU urlParses baseUrl limit visited collected rest
        | some resolved =>
          if isHttpUrl urlParses resolved then
            match recurse resolved limit visited collected with
            | .error e => .error e
            | .ok (v2, c2) =>
              collectChildSitemaps recurse resolveU urlParses baseUrl limit v2 c2 rest
          else
            collectChildSitemaps recurse resolveU urlParses baseUrl limit visited collected rest

/-- Embeds `collectUrlsFromSitemap` of generate-url-list.mjs.  The module-level
`visitedSitemaps` set and the `collected` accumulator are threaded explicitly;
`resolveU` embeds `new URL(relative, base).toString()` (null on parse failure)
and `urlParses` embeds bare URL-parser success.  The extra `fuel` argument
bounds the recursion depth of the embedding only; `CollectErr.fuelOut` is
returned when it runs out (and never occurs for a large enough budget, see the
termination theorem). -/
def collectUrlsFromSitemap (world : SitemapWorld) (resolveU : String → String → Option String)
    (urlParses : String → Bool) :
    Nat → String → Nat → List String → List String →
    Except CollectErr (List String × List String)
  | 0, _, _, _, _ => .error .fuelOut
  | fuel + 1, sitemapUrl, limit, visited, collected =>
    if limit ≤ collected.length then .ok (visited, collected)
    else if visited.contains sitemapUrl then .ok (visited, collected)
    else
      match (world.lookup sitemapUrl : Option ParsedXml) with
      | none => .error (.fetchFail sitemapUrl)
      | some parsed =>
        match parsed.urlset with
        | some urlNode =>
          .ok (sitemapUrl :: visited, addUrlsetLocs urlParses limit (normalizeToArray urlNode) collected)
        | none =>
          match parsed.sitemapindex with
          | some smNode =>
            collectChildSitemaps
              (fun u lim v c => collectUrlsFromSitemap world resolveU urlParses fuel u lim v c)
              resolveU urlParses sitemapUrl limit (sitemapUrl :: visited) collected
              (normalizeToArray smNode)
          | none => .ok (sitemapUrl :: visited, collected)

/-- The sequence of the two resolution calls a single process would perform:
the module-level `visitedSitemaps` set survives the first call and is handed,
as is, to the second call, which starts from a fresh `collected` array.
Returns the two collected lists. -/
def twoSuccessiveResolutions (world : SitemapWorld) (resolveU : String → String → Option String)
    (urlParses : String → Bool) (fuel : Nat) (sitemapUrl : String) (limit : Nat) :
    Except CollectErr (List String × List String) :=
  match collectUrlsFromSitemap world resolveU urlParses fuel sitemapUrl limit [] [] with
  | .error e => .error e
  | .ok (visitedAfterFirst, firstCollected) =>
    match collectUrlsFromSitemap world resolveU urlParses fuel sitemapUrl limit visitedAfterFirst [] with
    | .error e => .error e
    | .ok (_, secondCollected) => .ok (firstCollected, secondCollected)

/- ====================================================================
   Domain-aware rate limiter (processUrlWithRateLimit of the audit runner)
   ==================================================================== -/

/-- Phase of one queued audit task inside its hostname's `pLimit` domain
queue: `pending` before the queue runs its function, `sleeping wake` while it
awaits the enforced delay (`setTimeout`), `processing` from its dispatch (the
`processUrl` call) until settlement, then `done`. -/
inductive RLPhase where
  | pending : RLPhase
  | sleeping (wake : Nat) : RLPhase
  | processing : RLPhase
  | done : RLPhase
deriving DecidableEq

/-- Whether a task currently occupies a slot of its domain queue (it does from
the moment the queued function starts until its promise settles). -/
def RLPhase.active : RLPhase → Bool
  | .sleeping _ => true
  | .processing => true
  | _ => false

/-- Per-hostname scheduler state: the clock, the hostname's
`domainLastRequest` entry (`0` when absent, via the `|| 0` default), the phase
of each of its tasks, and the dispatch log — the `Date.now()` values written
to `domainLastRequest` immediately before each `processUrl` call, in event
order. -/
structure RLState where
  time : Nat
  last : Nat
  phases : List RLPhase
  log : List Nat
deriving DecidableEq

/-- Number of tasks currently holding a slot of the domain queue. -/
def activeCount (s : RLState) : Nat := (s.phases.filter RLPhase.active).length

/-- Events of the rate limiter, interleaved nondeterministically: `elapse`
advances the clock; `start i` lets the domain queue run task `i`'s function,
whose synchronous prologue reads `domainLastRequest` and either dispatches at
once (delay already elapsed) or sleeps until `lastRequestTime +
delayBetweenRequests`; `wake i` resumes a sleeping task at or after its wake
time, writes `domainLastRequest` and dispatches; `finish i` settles a
dispatched task, freeing its slot. -/
inductive RLEvent where
  | elapse (d : Nat) : RLEvent
  | start (i : Nat) : RLEvent
  | wake (i : Nat) : RLEvent
  | finish (i : Nat) : RLEvent

/-- One step of the embedded rate limiter.  `T` is `delayBetweenRequests`, `D`
is `maxConcurrentPerDomain` (the `pLimit` bound of the domain queue).  The
read-check-write of `domainLastRequest` is atomic exactly where the JavaScript
runs synchronously: inside `start` when no sleep is needed, and inside `wake`
after the sleep; between a task's sleep and its wake, other events of the same
hostname may run. -/
def rlStep (T D : Nat) (s : RLState) : RLEvent → Option RLState
  | .elapse d => some { s with time := s.time + d }
  | .start i =>
    match s.phases[i]? with
    | some .pending =>
      if activeCount s < D then
        if s.time - s.last < T then
          some { s with phases := s.phases.set i (.sleeping (s.last + T)) }
        else
          some { s with last := s.time, phases := s.phases.set i .processing,
                        log := s.log ++ [s.time] }
      else none
    | _ => none
  | .wake i =>
    match s.phases[i]? with
    | some (.sleeping w) =>
      if w ≤ s.time then
        some { s with last := s.time, phases := s.phases.set i .processing,
                      log := s.log ++ [s.time] }
      else none
    | _ => none
  | .finish i =>
    match s.phases[i]? with
    | some .processing => some { s with phases := s.phases.set i .done }
    | _ => none

/-- Initial per-hostname state: `n` queued tasks, no `domainLastRequest` entry
(read as `0`), clock at `t0`. -/
def rlInit (n t0 : Nat) : RLState :=
  { time := t0, last := 0, phases := List.replicate n .pending, log := [] }

/-- Run a list of events from a state; `none` when an event is not enabled. -/
def rlRun (T D : Nat) : RLState → List RLEvent → Option RLState
  | s, [] => some s
  | s, e :: es =>
    match rlStep T D s e with
    | some s2 => rlRun T D s2 es
    | none => none

/-- The states reachable from an initial state under the rate limiter. -/
inductive RLReach (T D : Nat) : RLState → Prop where
  | init (n t0 : Nat) : RLReach T D (rlInit n t0)
  | step {s s2 : RLState} (e : RLEvent) :
      RLReach T D s → rlStep T D s e = some s2 → RLReach T D s2

/- ====================================================================
   Page Audit Executor and scheduler (processUrl, Promise.allSettled)
   ==================================================================== -/

/-- A JavaScript error value: message, stack and constructor name. -/
structure JsError where
  message : String
  stack : String
  ctorName : String
deriving DecidableEq

/-- A `new Error(msg)`; its stack is opaque and modelled by the message. -/
def jsNewError (msg : String) : JsError :=
  { message := msg, stack := msg, ctorName := "Error" }

/-- The error record built by `handleProcessingError`. -/
structure ErrorInfo where
  url : String
  message : String
  stack : String
  timestamp : String
  errType : String
deriving DecidableEq

/-- The value a `processUrl` invocation fulfils with: success, an early
validation failure carrying a plain message, or a caught failure carrying the
`handleProcessingError` record. -/
inductive PageOutcome where
  | success (url : String) : PageOutcome
  | failureMsg (url : String) (error : String) : PageOutcome
  | failureInfo (url : String) (info : ErrorInfo) : PageOutcome
deriving DecidableEq

/-- A settled promise, as observed by `Promise.allSettled`. -/
inductive Settled where
  | fulfilled (v : PageOutcome) : Settled
  | rejected (e : JsError) : Settled
deriving DecidableEq

/-- The externally determined outcomes of the browser-automation steps of one
URL's audit: page initialization (`loadPage`, observer install, timeouts),
screenshot capture, `analyze` (with whether its result is an object), artifact
persistence, and the `page.close()` of the `finally` cleanup.  `nowIso` is the
timestamp recorded with an error.  `observerEscape` is an error thrown by the
installed `page.on('response')` observer during this URL's audit: such a throw
happens inside the automation library's event dispatch, not inside the `try`
of `processUrl`, so it can never be caught there — it escapes the per-URL
pipeline (`none` when no observer error is thrown, which is always the case
when `responseObserverInstalled maxPageSize = false`). -/
structure UrlBehavior where
  url : String
  index : Nat
  total : Nat
  initRes : Except JsError Unit
  shotRes : Except JsError Unit
  analyzeRes : Except JsError Bool
  saveRes : Except JsError Unit
  closeRes : Except JsError Unit
  nowIso : String
  observerEscape : Option JsError

/-- Embeds `handleProcessingError`: capture message, stack, timestamp and
constructor name of the caught error into the failure result. -/
def handleProcessingError (nowIso : String) (url : String) (e : JsError) : ErrorInfo :=
  { url := url, message := e.message, stack := e.stack, timestamp := nowIso,
    errType := e.ctorName }

/-- The `try` block of `processUrl`: initialize, capture the screenshot when
enabled, run the audit (`runAccessibilityTest` throws an
`Invalid axe test results received` error on a non-object result), persist. -/
def processUrlTry (enableShots : Bool) (b : UrlBehavior) : Except JsError PageOutcome :=
  match b.initRes with
  | .error e => .error e
  | .ok _ =>
    match (if enableShots then b.shotRes else .ok ()) with
    | .error e => .error e
    | .ok _ =>
      match b.analyzeRes with
      | .error e => .error e
      | .ok isObject =>
        if !isObject then .error (jsNewError "Invalid axe test results received")
        else
          match b.saveRes with
          | .error e => .error e
          | .ok _ => .ok (.success b.url)

/-- Embeds `processUrl`: the early validation returns (`isValidUrl` of the
runner has the same body as `isHttpUrl`), the try/catch turning every thrown
step error into a failure result, and the `finally` running `safeCleanupPage`
— whose `page.close()` can only throw when a page was acquired, in which case
its error replaces the outcome and the promise rejects. -/
def processUrl (urlParses : String → Bool) (enableShots : Bool) (b : UrlBehavior) : Settled :=
  if !(isHttpUrl urlParses b.url) then .fulfilled (.failureMsg b.url "Invalid URL format")
  else if b.index == 0 || b.total == 0 then
    .fulfilled (.failureMsg b.url "Invalid index or total parameters")
  else
    let caught : PageOutcome :=
      match processUrlTry enableShots b with
      | .ok r => r
      | .error e => .failureInfo b.url (handleProcessingError b.nowIso b.url e)
    match b.initRes with
    | .error _ => .fulfilled caught
    | .ok _ =>
      match b.closeRes with
      | .error e => .rejected e
      | .ok _ => .fulfilled caught

/-- Embeds the concurrent path of the runner: one promise per URL, each one
settled and collected by `Promise.allSettled` in input order. -/
def runAllSettled (urlParses : String → Bool) (enableShots : Bool)
    (behaviors : List UrlBehavior) : List Settled :=
  behaviors.map (processUrl urlParses enableShots)

/-- The tally test `r.status === 'fulfilled' && r.value.success`. -/
def Settled.isFulfilledSuccess : Settled → Bool
  | .fulfilled (.success _) => true
  | _ => false

/-- The `successful` count of the runner. -/
def successfulCount (results : List Settled) : Nat :=
  (results.filter Settled.isFulfilledSuccess).length

/-- The `failed` count of the runner: `results.length - successful`. -/
def failedCount (results : List Settled) : Nat :=
  results.length - successfulCount results

/-- Whether the runner installs the `response` observer: only when
`maxPageSize > 0`. -/
def responseObserverInstalled (maxPageSize : Nat) : Bool := decide (0 < maxPageSize)

/-- Embeds the `response` event handler installed by `initializePage`: read
the `content-length` header and throw `Page size exceeds limit` when the
header is truthy and its parsed value exceeds `maxPageSize`.  Note the throw
happens inside the automation library's event dispatch (a `page.on` listener),
not inside the `try` of `processUrl`. -/
def responseHandlerCheck (maxPageSize : Nat) (contentLength : Option String) :
    Except JsError Unit :=
  match truthyStr contentLength with
  | none => .ok ()
  | some cl =>
    match jsParseInt cl with
    | none => .ok ()
    | some n =>
      if (maxPageSize : Int) < n then
        .error (jsNewError ("Page size exceeds limit: " ++ cl ++ " bytes"))
      else .ok ()

/-- The outcome of a whole run: either `Promise.allSettled` completed with one
settled entry per dispatched URL, or the process aborted before the collection
finished (exit with the given code). -/
inductive RunOutcome where
  | completed (results : List Settled) : RunOutcome
  | aborted (exitCode : Nat) : RunOutcome
deriving DecidableEq

/-- Embeds the run together with the script's process-level handlers: an error
thrown by an installed `response` observer escapes the per-URL pipeline into
the library's event dispatch and surfaces as an `unhandledRejection` /
`uncaughtException`, whose registered handlers run `cleanup()` and
`process.exit(1)` — the run aborts and no settled outcome is collected for any
URL.  Only when no observer error escapes does `Promise.allSettled` collect
every URL's settled outcome. -/
def runAudits (urlParses : String → Bool) (enableShots : Bool)
    (behaviors : List UrlBehavior) : RunOutcome :=
  if behaviors.any (fun b => b.observerEscape.isSome) then .aborted 1
  else .completed (runAllSettled urlParses enableShots behaviors)

/-- A behavior whose every audit step succeeds and whose observer throws
nothing. -/
def okBehavior (url : String) (index total : Nat) : UrlBehavior :=
  { url := url, index := index, total := total, initRes := .ok (), shotRes := .ok (),
    analyzeRes := .ok true, saveRes := .ok (), closeRes := .ok (), nowIso := "t",
    observerEscape := none }

/-- A behavior whose audit steps all succeed but whose response observer,
installed under the shipped `maxPageSize = 8 * 1024 * 1024`, sees a response
advertising 9000000 bytes and throws: the thrown error is exactly what
`responseHandlerCheck` produces at that input, and it escapes the per-URL
pipeline. -/
def oversizedBehavior : UrlBehavior :=
  { okBehavior "http://b.example/" 2 3 with
    observerEscape :=
      match responseHandlerCheck (8 * 1024 * 1024) (some "9000000") with
      | .error e => some e
      | .ok _ => none }

/- ====================================================================
   URL Security Filter (isIpInCidr, isUrlAllowed)
   ==================================================================== -/

/-- JS `x < y` where `x` may be `NaN` (`none`): every comparison with `NaN`
is false. -/
def jsNumLt (x : Option Int) (y : Int) : Bool :=
  match x with
  | none => false
  | some v => decide (v < y)

/-- JS `x > y` likewise. -/
def jsNumGt (x : Option Int) (y : Int) : Bool :=
  match x with
  | none => false
  | some v => decide (y < v)

/-- JS `ToInt32`/`ToUint32` of a possibly-`NaN` number, represented by the
unsigned value below `2 ^ 32` (`NaN` converts to `0`). -/
def toUint32 (x : Option Int) : Nat :=
  match x with
  | none => 0
  | some v => (v % (2 : Int) ^ 32).toNat

/-- The 32-bit value `(a << 24) | (b << 16) | (c << 8) | d` built by
`isIpInCidr` from the four dotted-quad parts (each coerced by `Number`),
under JavaScript 32-bit semantics. -/
def v4Bits : List (Option Int) → Nat
  | [a, b, c, d] =>
    ((toUint32 a <<< 24) % 2 ^ 32) ||| ((toUint32 b <<< 16) % 2 ^ 32) |||
      ((toUint32 c <<< 8) % 2 ^ 32) ||| toUint32 d
  | _ => 0

/-- The 32-bit value of `-1 << (32 - prefixLength)` under JavaScript shift
semantics: the shift count is reduced modulo 32, so `prefixLength = 0` yields
the all-ones mask `2 ^ 32 - 1` rather than `0`. -/
def v4Mask (p : Option Int) : Nat :=
  match p with
  | none => 2 ^ 32 - 2 ^ 0
  | some v => 2 ^ 32 - 2 ^ ((32 - v).toNat % 32)

/-- Expansion of an IPv6 address's groups: the first `::` (first empty field
of the `':'` split) is filled with `8 - before - after` zero groups (none when
that is negative, as in JavaScript where the loop does not run). -/
def expandV6Parts (addr : String) : List String :=
  let parts := jsSplitChar addr ':'
  match parts.findIdx? (fun q => q == "") with
  | some i =>
    let before := parts.take i
    let after := (parts.drop (i + 1)).filter (fun q => q != "")
    before ++ List.replicate (8 - before.length - after.length) "0000" ++ after
  | none => parts

/-- Binary digits of `n`, most significant first: one digit is peeled per
recursion step, so any fuel at least the digit count yields the full digit
string (`n` itself always suffices, as a number has at most `n` binary
digits). -/
def binDigitsAux : Nat → Nat → List Char
  | 0, _ => []
  | fuel + 1, n =>
    if n = 0 then []
    else binDigitsAux fuel (n / 2) ++ [if n % 2 = 1 then '1' else '0']

/-- Models `Number.prototype.toString(2)`: the binary digits of `n` without
leading zeros, and `"0"` for zero. -/
def natToBin (n : Nat) : String := if n = 0 then "0" else ⟨binDigitsAux n n⟩

/-- `n.toString(2).padStart(16, '0')` for the number parsed from one group;
a `NaN` group stringifies to the literal `NaN` before padding. -/
def v6GroupBits (x : Option Nat) : String :=
  match x with
  | none => jsPadStart "NaN" 16 '0'
  | some n => jsPadStart (natToBin n) 16 '0'

/-- Embeds `ipv6ToBinary`: expand the groups, parse each (padded to 4) as
hexadecimal, and concatenate the padded binary strings. -/
def ipv6ToBinary (addr : String) : String :=
  String.join ((expandV6Parts addr).map
    (fun part => v6GroupBits (jsParseHex (jsPadStart part 4 '0'))))

/-- `substring(0, prefixLength)` length: `NaN` coerces to `0`. -/
def v6TakeLen (p : Option Int) : Nat :=
  match p with
  | none => 0
  | some v => v.toNat

/-- Embeds `isIpInCidr`.  `isIP6` is the external `net.isIP(x) === 6` test.
IPv4 path: dotted-quad parts through `Number`, 32-bit masked comparison using
the JavaScript shift semantics above.  IPv6 path: binary expansion and
comparison of the leading `prefixLength` characters.  Malformed input yields
`false`. -/
def isIpInCidr (isIP6 : String → Bool) (ip cidr : String) : Bool :=
  let parts := jsSplitChar cidr '/'
  let network := parts.headD ""
  let pStr := (parts.drop 1).headD ""
  let p := jsParseInt pStr
  let isV4 := jsContainsChar network '.' && !(jsContainsChar network ':')
  let isV6 := jsContainsChar network ':'
  if isV4 then
    let networkParts := (jsSplitChar network '.').map jsNumber
    let ipParts := (jsSplitChar ip '.').map jsNumber
    if networkParts.length != 4 || ipParts.length != 4 then false
    else if jsNumLt p 0 || jsNumGt p 32 then false
    else (v4Bits networkParts &&& v4Mask p) == (v4Bits ipParts &&& v4Mask p)
  else if isV6 then
    if jsNumLt p 0 || jsNumGt p 128 then false
    else if !(isIP6 network) || !(isIP6 ip) then false
    else
      let networkBinary := ipv6ToBinary network
      let ipBinary := ipv6ToBinary ip
      if networkBinary.data.length != 128 || ipBinary.data.length != 128 then false
      else jsTake networkBinary (v6TakeLen p) == jsTake ipBinary (v6TakeLen p)
  else false

/-- `hostname === entry || hostname.endsWith('.' + entry)`. -/
def hostMatchesDomain (hostname entry : String) : Bool :=
  hostname == entry || jsEndsWith hostname ("." ++ entry)

/-- Whether one block-list entry rejects the (lowercased) hostname: CIDR test
when the entry contains a slash, domain-suffix test otherwise. -/
def blockedEntryMatches (isIP6 : String → Bool) (hostname entry : String) : Bool :=
  let blocked := jsToLower entry
  if jsContainsChar blocked '/' then isIpInCidr isIP6 hostname blocked
  else hostMatchesDomain hostname blocked

/-- Embeds `isUrlAllowed`: parse the URL via the external parser `hostOf` (a
parse failure rejects), lowercase the hostname, reject on the first matching
block-list entry, then default-allow on an empty allow-list or require a
matching allow-list entry. -/
def isUrlAllowed (isIP6 : String → Bool) (hostOf : String → Option String)
    (url : String) (allowedDomains blockedDomains : List String) : Bool :=
  match hostOf url with
  | none => false
  | some rawHost =>
    let hostname := jsToLower rawHost
    if blockedDomains.any (blockedEntryMatches isIP6 hostname) then false
    else if allowedDomains.isEmpty then true
    else allowedDomains.any (fun a => hostMatchesDomain hostname (jsToLower a))

/-- The canonical 32-bit value of a dotted-quad IPv4 address. -/
def canonV4 (a b c d : Nat) : Nat := ((a * 256 + b) * 256 + c) * 256 + d

/-- The CIDR range semantics, stated from the spec: an address belongs to
`network/p` exactly when its leading `p` bits agree with the network's. -/
abbrev inCidrV4 (networkVal ipVal p : Nat) : Prop :=
  networkVal >>> (32 - p) = ipVal >>> (32 - p)

/-- The character of one bit. -/
def bitChar (b : Bool) : Char := if b then '1' else '0'

/-- The fixed-width big-endian binary digit list of `n`: `k` characters, most
significant bit first. -/
def bitsOf (k n : Nat) : List Char :=
  (List.range k).map (fun i => bitChar (n.testBit (k - 1 - i)))

/-- The canonical value of an IPv6 address given as its list of 16-bit group
values, most significant group first. -/
def canonV6 (gs : List Nat) : Nat :=
  gs.foldl (fun acc g => acc * 2 ^ 16 + g) 0

/-- The CIDR range semantics for IPv6, stated from the spec: an address
belongs to `network/p` exactly when its leading `p` of 128 bits agree with the
network's. -/
abbrev inCidrV6 (networkVal ipVal p : Nat) : Prop :=
  networkVal >>> (128 - p) = ipVal >>> (128 - p)

/- ====================================================================
   Filename derivation (script/utils/filename.mjs)
   ==================================================================== -/

/-- `[a-zA-Z0-9-_]`: the characters `sanitizeSegment` keeps. -/
def isKeptChar (c : Char) : Bool :=
  ('a' ≤ c && c ≤ 'z') || ('A' ≤ c && c ≤ 'Z') || ('0' ≤ c && c ≤ '9') ||
    c == '-' || c == '_'

/-- The combining marks `[\u0300-\u036f]` stripped after NFKD. -/
def isCombiningMark (c : Char) : Bool := 0x300 ≤ c.toNat && c.toNat ≤ 0x36f

/-- Replace every maximal run of non-kept characters by one dash
(`replace` of `[^a-zA-Z0-9-_]+` with `-`); `inRun` tracks whether the
previous character belonged to the current run. -/
def collapseRunsAux : Bool → List Char → List Char
  | _, [] => []
  | inRun, c :: cs =>
    if isKeptChar c then c :: collapseRunsAux false cs
    else if inRun then collapseRunsAux true cs
    else '-' :: collapseRunsAux true cs

/-- Strip leading and trailing dashes (`replace` of `^-+|-+$` with the empty
string). -/
def trimDashes (l : List Char) : List Char :=
  ((l.dropWhile (fun c => c == '-')).reverse.dropWhile (fun c => c == '-')).reverse

/-- Embeds `sanitizeSegment`: NFKD (external `nfkd`), strip combining marks,
collapse non-kept runs to dashes, strip edge dashes, lowercase. -/
def sanitizeSegment (nfkd : String → String) (s : String) : String :=
  ⟨(trimDashes (collapseRunsAux false
      ((nfkd s).data.filter (fun c => !isCombiningMark c)))).map Char.toLower⟩

/-- Embeds `createHashSuffix`: the first `len` hex characters of the external
SHA-1 `sha1hex`. -/
def createHashSuffix (sha1hex : String → String) (value : String) (len : Nat) : String :=
  jsTake (sha1hex value) len

/-- The components of a parsed URL used by the filename derivation. -/
structure UrlParts where
  hostname : String
  pathname : String
  search : String

/-- `Array.prototype.join('-')`. -/
def joinDash : List String → String
  | [] => ""
  | [s] => s
  | s :: rest => s ++ "-" ++ joinDash rest

/-- Embeds `generateBaseFilename` (for string arguments; a non-string
argument is rejected by the same initial guard in JavaScript).  `nfkd` and
`sha1hex` are the external normalizer and hash, `parseU` the external URL
parser (`none` = `new URL` throws), `nowStr` the `Date.now()` rendering of the
final fallback. -/
def generateBaseFilename (nfkd sha1hex : String → String)
    (parseU : String → Option UrlParts) (nowStr : String) (url : String) :
    Except String String :=
  if jsTrim url = "" then .error "URL must be a non-empty string"
  else
    let trimmed := jsTrim url
    match parseU trimmed with
    | none =>
      let sanitized := jsTake (sanitizeSegment nfkd trimmed) 80
      let fallback := if sanitized = "" then "invalid-url" else sanitized
      .ok (fallback ++ "-" ++ createHashSuffix sha1hex trimmed 8)
    | some parsed =>
      let hostSeg0 := sanitizeSegment nfkd parsed.hostname
      let hostSegment := if hostSeg0 = "" then "root" else hostSeg0
      let pathSegments :=
        List.filter (fun q => q != "")
          (List.map (sanitizeSegment nfkd)
            (List.filter (fun q => q != "") (jsSplitChar parsed.pathname '/')))
      let base0 := joinDash (hostSegment :: pathSegments)
      let base1 := if base0 = "" then hostSegment else base0
      let base2 :=
        if parsed.search ≠ "" then base1 ++ "-" ++ createHashSuffix sha1hex parsed.search 6
        else base1
      let base3 :=
        if 120 < jsLength base2 then
          jsTake base2 110 ++ "-" ++ createHashSuffix sha1hex base2 8
        else base2
      if base3 = "" then .ok ("url-" ++ nowStr) else .ok base3

/- ====================================================================
   Reports Index reconciliation (src/server/reports.ts)
   ==================================================================== -/

/-- One element of the stored `runs` array: `invalid` is a null or non-object
element; otherwise its `summaryJson` / `resultsDir` fields, present only when
they are strings. -/
inductive RunEntryVal where
  | invalid : RunEntryVal
  | entry (summaryJson : Option String) (resultsDir : Option String) : RunEntryVal
deriving DecidableEq

/-- The stored index file: absent, unparsable JSON, JSON without a `runs`
array, or a `runs` array. -/
inductive StoredIndex where
  | absent : StoredIndex
  | unparsable : StoredIndex
  | notRunsArray : StoredIndex
  | runsArray (rs : List RunEntryVal) : StoredIndex

/-- The retention test of the reconciliation pass: the element is an object,
its `summaryJson` and `resultsDir` are strings, and both resolved paths exist
on the filesystem `fs` (path resolution by the external `resolveP`, embedding
`path.resolve(process.cwd(), ·)`). -/
def entryKept (fs : String → Bool) (resolveP : String → String) : RunEntryVal → Bool
  | .invalid => false
  | .entry sj rd =>
    let summaryExists := match sj with | some s => fs (resolveP s) | none => false
    let resultsExists := match rd with | some r => fs (resolveP r) | none => false
    summaryExists && resultsExists

/-- Embeds `ensureReportsIndex`: an absent, unparsable or shapeless file
yields the empty index; a `runs` array is filtered by the retention test on
every read. -/
def ensureReportsIndex (fs : String → Bool) (resolveP : String → String) :
    StoredIndex → List RunEntryVal
  | .absent => []
  | .unparsable => []
  | .notRunsArray => []
  | .runsArray rs => rs.filter (entryKept fs resolveP)

/-- The number of sitemaps of the world not yet visited: the measure that
shrinks at every recursive descent of the resolver. -/
def unvisitedCount (world : SitemapWorld) (visited : List String) : Nat :=
  ((world.map Prod.fst).filter (fun k => !(visited.contains k))).length

/-- The inductive invariant of the rate limiter under a per-domain concurrency
bound of 1: the clock is past the last dispatch, every logged dispatch is no
later than `last`, consecutive logged dispatches are at least `T` apart, at
most one task is active, and a sleeping task always wakes at `last + T`. -/
def RLInv (T : Nat) (s : RLState) : Prop :=
  s.last ≤ s.time ∧
  (∀ t ∈ s.log, t ≤ s.last) ∧
  List.Pairwise (fun a b => a + T ≤ b) s.log ∧
  (s.phases.filter RLPhase.active).length ≤ 1 ∧
  (∀ (i : Nat) (w : Nat), s.phases[i]? = some (RLPhase.sleeping w) → w = s.last + T)

/- ====================================================================
   Theorems: sitemap resolver
   ==================================================================== -/

theorem addUrlsetLocs_length_le (urlParses : String → Bool) (limit : Nat) :
    ∀ (es : List SmEntry) (collected : List String),
      collected.length ≤ limit → (addUrlsetLocs urlParses limit es collected).length ≤ limit := by
  intro es
  induction es with
  | nil => intro collected h; simpa [addUrlsetLocs] using h
  | cons e es ih =>
    intro collected h
    rw [addUrlsetLocs]
    split
    · exact h
    · split
      · split
        · rename_i hnotfull _ _ _
          apply ih
          simp only [List.length_append, List.length_singleton]
          omega
        · exact ih _ h
      · exact ih _ h

theorem addUrlsetLocs_nodup (urlParses : String → Bool) (limit : Nat) :
    ∀ (es : List SmEntry) (collected : List String),
      collected.Nodup → (addUrlsetLocs urlParses limit es collected).Nodup := by
  intro es
  induction es with
  | nil => intro collected h; simpa [addUrlsetLocs] using h
  | cons e es ih =>
    intro collected h
    rw [addUrlsetLocs]
    split
    · exact h
    · split
      · rename_i l hleq
        split
        · rename_i hcond
          apply ih
          have hnotmem : l ∉ collected := by
            intro hm
            simp [hm] at hcond
          simp [List.nodup_append, h, hnotmem]
        · exact ih _ h
      · exact ih _ h

theorem collectChildSitemaps_inv
    (recurse : String → Nat → List String → List String →
      Except CollectErr (List String × List String))
    (resolveU : String → String → Option String) (urlParses : String → Bool)
    (baseUrl : String) (limit : Nat)
    (hrec : ∀ u visited collected v c, collected.length ≤ limit → collected.Nodup →
      recurse u limit visited collected = .ok (v, c) → c.length ≤ limit ∧ c.Nodup) :
    ∀ (children : List SmEntry) (visited collected v c : List String),
      collected.length ≤ limit → collected.Nodup →
      collectChildSitemaps recurse resolveU urlParses baseUrl limit visited collected children = .ok (v, c) →
      c.length ≤ limit ∧ c.Nodup := by
  intro children
  induction children with
  | nil =>
    intro visited collected v c hlen hnd h
    rw [collectChildSitemaps] at h
    simp only [Except.ok.injEq, Prod.mk.injEq] at h
    obtain ⟨-, rfl⟩ := h
    exact ⟨hlen, hnd⟩
  | cons child rest ih =>
    intro visited collected v c hlen hnd h
    rw [collectChildSitemaps] at h
    split at h
    · simp only [Except.ok.injEq, Prod.mk.injEq] at h
      obtain ⟨-, rfl⟩ := h
      exact ⟨hlen, hnd⟩
    · split at h
      · exact ih _ _ _ _ hlen hnd h
      · split at h
        · exact ih _ _ _ _ hlen hnd h
        · split at h
          · split at h
            · cases h
            · rename_i pair heq
              obtain ⟨hl2, hn2⟩ := hrec _ _ _ _ _ hlen hnd heq
              exact ih _ _ _ _ hl2 hn2 h
          · exact ih _ _ _ _ hlen hnd h

theorem collectUrlsFromSitemap_inv (world : SitemapWorld)
    (resolveU : String → String → Option String) (urlParses : String → Bool) :
    ∀ (fuel : Nat) (sitemapUrl : String) (limit : Nat) (visited collected v c : List String),
      collected.length ≤ limit → collected.Nodup →
      collectUrlsFromSitemap world resolveU urlParses fuel sitemapUrl limit visited collected = .ok (v, c) →
      c.length ≤ limit ∧ c.Nodup := by
  intro fuel
  induction fuel with
  | zero =>
    intro url limit visited collected v c hlen hnd h
    rw [collectUrlsFromSitemap] at h
    cases h
  | succ fuel ih =>
    intro url limit visited collected v c hlen hnd h
    rw [collectUrlsFromSitemap] at h
    split at h
    · simp only [Except.ok.injEq, Prod.mk.injEq] at h
      obtain ⟨-, rfl⟩ := h
      exact ⟨hlen, hnd⟩
    · split at h
      · simp only [Except.ok.injEq, Prod.mk.injEq] at h
        obtain ⟨-, rfl⟩ := h
        exact ⟨hlen, hnd⟩
      · split at h
        · cases h
        · split at h
          · simp only [Except.ok.injEq, Prod.mk.injEq] at h
            obtain ⟨-, rfl⟩ := h
            exact ⟨addUrlsetLocs_length_le urlParses limit _ _ hlen,
                   addUrlsetLocs_nodup urlParses limit _ _ hnd⟩
          · split at h
            · exact collectChildSitemaps_inv _ resolveU urlParses _ limit
                (fun u vv cc v' c' hl hn hh => ih u limit vv cc v' c' hl hn hh)
                _ _ _ _ _ hlen hnd h
            · simp only [Except.ok.injEq, Prod.mk.injEq] at h
              obtain ⟨-, rfl⟩ := h
              exact ⟨hlen, hnd⟩

/-- C1: for every sitemap resolution — any world of leaf sitemaps and sitemap
indexes, any URL resolver and URL parser, any recursion budget — with a
configured maximum page count `maxPages`, the collected candidate URL list of a
successful resolution contains at most `maxPages` entries and contains no URL
twice. -/
theorem c1_resolution_bounded_and_dedup (world : SitemapWorld)
    (resolveU : String → String → Option String) (urlParses : String → Bool)
    (fuel : Nat) (sitemapUrl : String) (maxPages : Nat) (visitedOut collected : List String)
    (h : collectUrlsFromSitemap world resolveU urlParses fuel sitemapUrl maxPages [] [] =
      .ok (visitedOut, collected)) :
    collected.length ≤ maxPages ∧ collected.Nodup :=
  collectUrlsFromSitemap_inv world resolveU urlParses fuel sitemapUrl maxPages [] [] visitedOut
    collected (Nat.zero_le maxPages) List.nodup_nil h

/-- Witness for C1: a leaf sitemap with four entries, one of them a duplicate,
resolved with `maxPages = 2`, yields exactly two distinct URLs. -/
theorem c1_resolution_bounded_and_dedup_witness :
    (["http://e.com/a", "http://e.com/b"] : List String).length ≤ 2 ∧
    (["http://e.com/a", "http://e.com/b"] : List String).Nodup :=
  c1_resolution_bounded_and_dedup
    [("http://e.com/s.xml",
      { urlset := some (.many [.strE "http://e.com/a", .strE "http://e.com/a",
                               .strE "http://e.com/b", .strE "http://e.com/c"]),
        sitemapindex := none })]
    (fun _ l => some l) (fun _ => true) 1 "http://e.com/s.xml" 2
    ["http://e.com/s.xml"] ["http://e.com/a", "http://e.com/b"] (by decide)

theorem collectChildSitemaps_visited_grows
    (recurse : String → Nat → List String → List String →
      Except CollectErr (List String × List String))
    (resolveU : String → String → Option String) (urlParses : String → Bool)
    (baseUrl : String) (limit : Nat)
    (hrec : ∀ u visited collected v c, recurse u limit visited collected = .ok (v, c) → visited ⊆ v) :
    ∀ (children : List SmEntry) (visited collected v c : List String),
      collectChildSitemaps recurse resolveU urlParses baseUrl limit visited collected children = .ok (v, c) →
      visited ⊆ v := by
  intro children
  induction children with
  | nil =>
    intro visited collected v c h
    rw [collectChildSitemaps] at h
    simp only [Except.ok.injEq, Prod.mk.injEq] at h
    obtain ⟨rfl, -⟩ := h
    exact List.Subset.refl _
  | cons child rest ih =>
    intro visited collected v c h
    rw [collectChildSitemaps] at h
    split at h
    · simp only [Except.ok.injEq, Prod.mk.injEq] at h
      obtain ⟨rfl, -⟩ := h
      exact List.Subset.refl _
    · split at h
      · exact ih _ _ _ _ h
      · split at h
        · exact ih _ _ _ _ h
        · split at h
          · split at h
            · cases h
            · rename_i pair heq
              exact List.Subset.trans (hrec _ _ _ _ _ heq) (ih _ _ _ _ h)
          · exact ih _ _ _ _ h

theorem collectUrlsFromSitemap_visited_grows (world : SitemapWorld)
    (resolveU : String → String → Option String) (urlParses : String → Bool) :
    ∀ (fuel : Nat) (sitemapUrl : String) (limit : Nat) (visited collected v c : List String),
      collectUrlsFromSitemap world resolveU urlParses fuel sitemapUrl limit visited collected = .ok (v, c) →
      visited ⊆ v := by
  intro fuel
  induction fuel with
  | zero =>
    intro url limit visited collected v c h
    rw [collectUrlsFromSitemap] at h
    cases h
  | succ fuel ih =>
    intro url limit visited collected v c h
    rw [collectUrlsFromSitemap] at h
    split at h
    · simp only [Except.ok.injEq, Prod.mk.injEq] at h
      obtain ⟨rfl, -⟩ := h
      exact List.Subset.refl _
    · split at h
      · simp only [Except.ok.injEq, Prod.mk.injEq] at h
        obtain ⟨rfl, -⟩ := h
        exact List.Subset.refl _
      · split at h
        · cases h
        · split at h
          · simp only [Except.ok.injEq, Prod.mk.injEq] at h
            obtain ⟨rfl, -⟩ := h
            exact List.subset_cons_self _ _
          · split at h
            · exact List.Subset.trans (List.subset_cons_self _ _)
                (collectChildSitemaps_visited_grows _ resolveU urlParses _ limit
                  (fun u vv cc v' c' hh => ih u limit vv cc v' c' hh) _ _ _ _ _ h)
            · simp only [Except.ok.injEq, Prod.mk.injEq] at h
              obtain ⟨rfl, -⟩ := h
              exact List.subset_cons_self _ _

theorem contains_true_iff {l : List String} {a : String} : l.contains a = true ↔ a ∈ l :=
  List.elem_iff

theorem unvisitedCount_mono (world : SitemapWorld) {visited visited2 : List String}
    (h : visited ⊆ visited2) : unvisitedCount world visited2 ≤ unvisitedCount world visited := by
  apply List.Sublist.length_le
  apply List.monotone_filter_right
  intro k hk
  simp only [Bool.not_eq_true'] at hk ⊢
  rcases hcv : visited.contains k with _ | _
  · rfl
  · have h2 : visited2.contains k = true := contains_true_iff.mpr (h (contains_true_iff.mp hcv))
    rw [h2] at hk
    cases hk

theorem unvisitedCount_cons_lt (world : SitemapWorld) {visited : List String} {url : String}
    (hmem : url ∈ world.map Prod.fst) (hnv : url ∉ visited) :
    unvisitedCount world (url :: visited) < unvisitedCount world visited := by
  have hsub : List.Sublist ((world.map Prod.fst).filter (fun k => !((url :: visited).contains k)))
      ((world.map Prod.fst).filter (fun k => !(visited.contains k))) := by
    apply List.monotone_filter_right
    intro k hk
    simp only [Bool.not_eq_true', List.contains_cons] at hk ⊢
    rcases Bool.or_eq_false_iff.mp hk with ⟨-, h2⟩
    exact h2
  have hin : url ∈ (world.map Prod.fst).filter (fun k => !(visited.contains k)) := by
    apply List.mem_filter.mpr
    refine ⟨hmem, ?_⟩
    simp only [Bool.not_eq_true']
    rcases hcv : visited.contains url with _ | _
    · rfl
    · exact absurd (contains_true_iff.mp hcv) hnv
  have hnin : url ∉ (world.map Prod.fst).filter (fun k => !((url :: visited).contains k)) := by
    intro hm
    have := (List.mem_filter.mp hm).2
    simp at this
  have hle := hsub.length_le
  rcases Nat.lt_or_ge ((world.map Prod.fst).filter
      (fun k => !((url :: visited).contains k))).length ((world.map Prod.fst).filter
      (fun k => !(visited.contains k))).length with hlt | hge
  · exact hlt
  · exfalso
    have heq := hsub.eq_of_length (Nat.le_antisymm hle hge)
    rw [heq] at hnin
    exact hnin hin

theorem lookup_mem_keys {world : SitemapWorld} {url : String} {p : ParsedXml}
    (h : world.lookup url = some p) : url ∈ world.map Prod.fst := by
  induction world with
  | nil => cases h
  | cons kv rest ih =>
    rw [List.lookup] at h
    split at h
    · rename_i hbeq
      simp only [List.map_cons, List.mem_cons]
      exact Or.inl (eq_of_beq hbeq)
    · simp only [List.map_cons, List.mem_cons]
      exact Or.inr (ih h)

theorem collectChildSitemaps_no_fuelOut (world : SitemapWorld)
    (resolveU : String → String → Option String) (urlParses : String → Bool) (fuel : Nat)
    (hcol : ∀ url limit visited collected, unvisitedCount world visited < fuel →
      collectUrlsFromSitemap world resolveU urlParses fuel url limit visited collected ≠
        .error .fuelOut) :
    ∀ (children : List SmEntry) (baseUrl : String) (limit : Nat) (visited collected : List String),
      unvisitedCount world visited < fuel →
      collectChildSitemaps
        (fun u lim v c => collectUrlsFromSitemap world resolveU urlParses fuel u lim v c)
        resolveU urlParses baseUrl limit visited collected children ≠ .error .fuelOut := by
  intro children
  induction children with
  | nil =>
    intro baseUrl limit visited collected hm
    rw [collectChildSitemaps]
    intro hc
    cases hc
  | cons child rest ih =>
    intro baseUrl limit visited collected hm
    rw [collectChildSitemaps]
    split
    · intro hc; cases hc
    · split
      · exact ih _ _ _ _ hm
      · split
        · exact ih _ _ _ _ hm
        · split
          · rcases hrec : collectUrlsFromSitemap world resolveU urlParses fuel _ limit visited collected
              with e | pair
            · rename_i resolved _ _ _
              intro hc
              injection hc with he
              subst he
              exact hcol _ _ _ _ hm hrec
            · obtain ⟨v2, c2⟩ := pair
              have hvsub := collectUrlsFromSitemap_visited_grows world resolveU urlParses
                fuel _ limit visited collected v2 c2 hrec
              have hm2 : unvisitedCount world v2 < fuel :=
                Nat.lt_of_le_of_lt (unvisitedCount_mono world hvsub) hm
              simp only [hrec]
              exact ih _ _ _ _ hm2
          · exact ih _ _ _ _ hm

theorem collectUrlsFromSitemap_no_fuelOut (world : SitemapWorld)
    (resolveU : String → String → Option String) (urlParses : String → Bool) :
    ∀ (fuel : Nat) (url : String) (limit : Nat) (visited collected : List String),
      unvisitedCount world visited < fuel →
      collectUrlsFromSitemap world resolveU urlParses fuel url limit visited collected ≠
        .error .fuelOut := by
  intro fuel
  induction fuel with
  | zero =>
    intro url limit visited collected hm
    exact absurd hm (Nat.not_lt_zero _)
  | succ fuel ih =>
    intro url limit visited collected hm
    rw [collectUrlsFromSitemap]
    by_cases hfull : limit ≤ collected.length
    · simp only [if_pos hfull]
      intro hc; cases hc
    · simp only [if_neg hfull]
      rcases hcv : visited.contains url with _ | _
      · simp only [hcv, Bool.false_eq_true, if_false]
        rcases hlk : world.lookup url with _ | parsed
        · simp only [hlk]
          intro hc; injection hc with he; cases he
        · simp only [hlk]
          rcases hus : parsed.urlset with _ | un
          · simp only [hus]
            rcases hsi : parsed.sitemapindex with _ | sn
            · simp only [hsi]
              intro hc; cases hc
            · simp only [hsi]
              apply collectChildSitemaps_no_fuelOut world resolveU urlParses fuel
                (fun u lim v c hmm => ih u lim v c hmm)
              have hkeys := lookup_mem_keys hlk
              have hnv : url ∉ visited := by
                intro hmem
                rw [contains_true_iff.mpr hmem] at hcv
                cases hcv
              have hlt := unvisitedCount_cons_lt world hkeys hnv
              omega
          · simp only [hus]
            intro hc; cases hc
      · simp only [hcv, if_true]
        intro hc; cases hc

theorem collectChildSitemaps_fuel_succ (world : SitemapWorld)
    (resolveU : String → String → Option String) (urlParses : String → Bool) (fuel : Nat)
    (hcol : ∀ url limit visited collected,
      collectUrlsFromSitemap world resolveU urlParses fuel url limit visited collected ≠
        .error .fuelOut →
      collectUrlsFromSitemap world resolveU urlParses (fuel + 1) url limit visited collected =
        collectUrlsFromSitemap world resolveU urlParses fuel url limit visited collected) :
    ∀ (children : List SmEntry) (baseUrl : String) (limit : Nat) (visited collected : List String),
      collectChildSitemaps
        (fun u lim v c => collectUrlsFromSitemap world resolveU urlParses fuel u lim v c)
        resolveU urlParses baseUrl limit visited collected children ≠ .error .fuelOut →
      collectChildSitemaps
        (fun u lim v c => collectUrlsFromSitemap world resolveU urlParses (fuel + 1) u lim v c)
        resolveU urlParses baseUrl limit visited collected children =
      collectChildSitemaps
        (fun u lim v c => collectUrlsFromSitemap world resolveU urlParses fuel u lim v c)
        resolveU urlParses baseUrl limit visited collected children := by
  intro children
  induction children with
  | nil =>
    intro baseUrl limit visited collected hne
    rw [collectChildSitemaps, collectChildSitemaps]
  | cons child rest ih =>
    intro baseUrl limit visited collected hne
    rw [collectChildSitemaps] at hne
    conv_lhs => rw [collectChildSitemaps]
    conv_rhs => rw [collectChildSitemaps]
    by_cases hfull : limit ≤ collected.length
    · simp only [if_pos hfull]
    · simp only [if_neg hfull] at hne ⊢
      rcases hloc : truthyStr (extractLocation child) with _ | location
      · simp only [hloc] at hne ⊢
        exact ih _ _ _ _ hne
      · simp only [hloc] at hne ⊢
        rcases hres : resolveU baseUrl location with _ | resolved
        · simp only [hres] at hne ⊢
          exact ih _ _ _ _ hne
        · simp only [hres] at hne ⊢
          rcases hhttp : isHttpUrl urlParses resolved with _ | _
          · simp only [hhttp, Bool.false_eq_true, if_false] at hne ⊢
            exact ih _ _ _ _ hne
          · simp only [hhttp, if_true] at hne ⊢
            rcases hrec : collectUrlsFromSitemap world resolveU urlParses fuel resolved limit
                visited collected with e | pair
            · simp only [hrec] at hne
              have hne2 : collectUrlsFromSitemap world resolveU urlParses fuel resolved limit
                  visited collected ≠ .error .fuelOut := by
                rw [hrec]
                exact hne
              rw [hcol _ _ _ _ hne2, hrec]
            · obtain ⟨v2, c2⟩ := pair
              have hne2 : collectUrlsFromSitemap world resolveU urlParses fuel resolved limit
                  visited collected ≠ .error .fuelOut := by
                rw [hrec]
                intro hx
                cases hx
              rw [hcol _ _ _ _ hne2, hrec]
              simp only [hrec] at hne
              exact ih _ _ _ _ hne

theorem collectUrlsFromSitemap_fuel_succ (world : SitemapWorld)
    (resolveU : String → String → Option String) (urlParses : String → Bool) :
    ∀ (fuel : Nat) (url : String) (limit : Nat) (visited collected : List String),
      collectUrlsFromSitemap world resolveU urlParses fuel url limit visited collected ≠
        .error .fuelOut →
      collectUrlsFromSitemap world resolveU urlParses (fuel + 1) url limit visited collected =
        collectUrlsFromSitemap world resolveU urlParses fuel url limit visited collected := by
  intro fuel
  induction fuel with
  | zero =>
    intro url limit visited collected hne
    exact absurd rfl hne
  | succ fuel ih =>
    intro url limit visited collected hne
    rw [collectUrlsFromSitemap] at hne
    conv_lhs => rw [collectUrlsFromSitemap]
    conv_rhs => rw [collectUrlsFromSitemap]
    by_cases hfull : limit ≤ collected.length
    · simp only [if_pos hfull]
    · simp only [if_neg hfull] at hne ⊢
      rcases hcv : visited.contains url with _ | _
      · simp only [hcv, Bool.false_eq_true, if_false] at hne ⊢
        rcases hlk : world.lookup url with _ | parsed
        · simp only [hlk]
        · simp only [hlk] at hne ⊢
          rcases hus : parsed.urlset with _ | un
          · simp only [hus] at hne ⊢
            rcases hsi : parsed.sitemapindex with _ | sn
            · simp only [hsi]
            · simp only [hsi] at hne ⊢
              exact collectChildSitemaps_fuel_succ world resolveU urlParses fuel
                (fun u lim v c h => ih u lim v c h) _ _ _ _ _ hne
          · simp only [hus]
      · simp only [hcv, if_true]

theorem collectUrlsFromSitemap_fuel_ge (world : SitemapWorld)
    (resolveU : String → String → Option String) (urlParses : String → Bool)
    {fuel fuel2 : Nat} (hle : fuel ≤ fuel2) (url : String) (limit : Nat)
    (visited collected : List String)
    (hne : collectUrlsFromSitemap world resolveU urlParses fuel url limit visited collected ≠
      .error .fuelOut) :
    collectUrlsFromSitemap world resolveU urlParses fuel2 url limit visited collected =
      collectUrlsFromSitemap world resolveU urlParses fuel url limit visited collected := by
  induction hle with
  | refl => rfl
  | step h2 ih =>
    rename_i n
    have hne2 : collectUrlsFromSitemap world resolveU urlParses n url limit visited collected ≠
        .error .fuelOut := by
      rw [ih]
      exact hne
    rw [collectUrlsFromSitemap_fuel_succ world resolveU urlParses n url limit visited
      collected hne2]
    exact ih

/-- C7: for every sitemap world — cyclic and duplicate sitemap-index references
included — resolution terminates: once the recursion budget exceeds the number
of sitemaps in the world, the embedded recursion completes without exhausting
its budget, and its value no longer depends on the budget.  That
budget-independent value is exactly what the recursion equations of
`collectUrlsFromSitemap` compute: the leaf URLs discovered in depth-first
order, each already-visited sitemap URL being skipped. -/
theorem c7_cyclic_resolution_terminates (world : SitemapWorld)
    (resolveU : String → String → Option String) (urlParses : String → Bool)
    (sitemapUrl : String) (limit : Nat) (fuel : Nat)
    (h : (world.map Prod.fst).length < fuel) :
    collectUrlsFromSitemap world resolveU urlParses fuel sitemapUrl limit [] [] ≠
      .error .fuelOut ∧
    collectUrlsFromSitemap world resolveU urlParses fuel sitemapUrl limit [] [] =
      collectUrlsFromSitemap world resolveU urlParses ((world.map Prod.fst).length + 1)
        sitemapUrl limit [] [] := by
  have hbase : unvisitedCount world [] = (world.map Prod.fst).length := by
    simp [unvisitedCount]
  have hne : collectUrlsFromSitemap world resolveU urlParses ((world.map Prod.fst).length + 1)
      sitemapUrl limit [] [] ≠ .error .fuelOut := by
    apply collectUrlsFromSitemap_no_fuelOut
    rw [hbase]
    exact Nat.lt_succ_self _
  have heq := collectUrlsFromSitemap_fuel_ge world resolveU urlParses
    (Nat.succ_le_of_lt h) sitemapUrl limit [] [] hne
  constructor
  · rw [heq]
    exact hne
  · exact heq

/-- Witness for C7: a cyclic sitemap index (A references B, B references A and
a leaf sitemap) resolves, with any budget above the bound, to the leaf URLs
discovered before the already-visited index was skipped. -/
theorem c7_cyclic_resolution_terminates_witness :
    collectUrlsFromSitemap
      [("http://a.com/s.xml", ⟨none, some (.single (.strE "http://b.com/s.xml"))⟩),
       ("http://b.com/s.xml", ⟨none, some (.many [.strE "http://a.com/s.xml", .strE "http://b.com/leaf.xml"])⟩),
       ("http://b.com/leaf.xml", ⟨some (.single (.strE "http://b.com/p1")), none⟩)]
      (fun _ l => some l) (fun _ => true) 9 "http://a.com/s.xml" 10 [] [] ≠
        .error .fuelOut ∧
    collectUrlsFromSitemap
      [("http://a.com/s.xml", ⟨none, some (.single (.strE "http://b.com/s.xml"))⟩),
       ("http://b.com/s.xml", ⟨none, some (.many [.strE "http://a.com/s.xml", .strE "http://b.com/leaf.xml"])⟩),
       ("http://b.com/leaf.xml", ⟨some (.single (.strE "http://b.com/p1")), none⟩)]
      (fun _ l => some l) (fun _ => true) 9 "http://a.com/s.xml" 10 [] [] =
    collectUrlsFromSitemap
      [("http://a.com/s.xml", ⟨none, some (.single (.strE "http://b.com/s.xml"))⟩),
       ("http://b.com/s.xml", ⟨none, some (.many [.strE "http://a.com/s.xml", .strE "http://b.com/leaf.xml"])⟩),
       ("http://b.com/leaf.xml", ⟨some (.single (.strE "http://b.com/p1")), none⟩)]
      (fun _ l => some l) (fun _ => true) 4 "http://a.com/s.xml" 10 [] [] :=
  c7_cyclic_resolution_terminates
    [("http://a.com/s.xml", ⟨none, some (.single (.strE "http://b.com/s.xml"))⟩),
     ("http://b.com/s.xml", ⟨none, some (.many [.strE "http://a.com/s.xml", .strE "http://b.com/leaf.xml"])⟩),
     ("http://b.com/leaf.xml", ⟨some (.single (.strE "http://b.com/p1")), none⟩)]
    (fun _ l => some l) (fun _ => true) "http://a.com/s.xml" 10 9 (by decide)

/-- Counterexample for C8: the `visitedSitemaps` set lives at module scope, so
a second resolution call in the same process does not start with an empty
visited-set.  Concretely, for a world with one leaf sitemap, the first call
collects its URL, while the second call — started with the module-level
visited-set left by the first — skips the sitemap and collects nothing, so its
result differs from the result the call would produce in isolation. -/
theorem c8_module_visited_counterexample :
    twoSuccessiveResolutions
      [("http://e.com/s.xml", ⟨some (.single (.strE "http://e.com/p1")), none⟩)]
      (fun _ l => some l) (fun _ => true) 2 "http://e.com/s.xml" 5 =
      .ok (["http://e.com/p1"], []) ∧
    (["http://e.com/p1"] : List String) ≠ ([] : List String) := by
  exact ⟨by decide, by decide⟩

/-- C8 amended: the visited-set is module state, not call-scoped state.  A
resolution call on a sitemap URL that is already in the inherited visited-set
returns its accumulator unchanged, collecting nothing; successive runs stay
isolated only because each run executes the resolver script in a fresh
process (the run driver spawns `generate-url-list.mjs` anew each time). -/
theorem c8_amended_visited_is_module_state (world : SitemapWorld)
    (resolveU : String → String → Option String) (urlParses : String → Bool)
    (fuel : Nat) (sitemapUrl : String) (limit : Nat) (visited collected : List String)
    (h : sitemapUrl ∈ visited) :
    collectUrlsFromSitemap world resolveU urlParses (fuel + 1) sitemapUrl limit
      visited collected = .ok (visited, collected) := by
  rw [collectUrlsFromSitemap]
  have hc : visited.contains sitemapUrl = true := contains_true_iff.mpr h
  by_cases hfull : limit ≤ collected.length
  · rw [if_pos hfull]
  · rw [if_neg hfull, if_pos hc]

/-- Witness for C8 (amended): a call whose sitemap URL was already visited by
the previous call of the same process collects nothing. -/
theorem c8_amended_visited_is_module_state_witness :
    collectUrlsFromSitemap
      [("http://e.com/s.xml", ⟨some (.single (.strE "http://e.com/p1")), none⟩)]
      (fun _ l => some l) (fun _ => true) 2 "http://e.com/s.xml" 5
      ["http://e.com/s.xml"] [] = .ok (["http://e.com/s.xml"], []) :=
  c8_amended_visited_is_module_state
    [("http://e.com/s.xml", ⟨some (.single (.strE "http://e.com/p1")), none⟩)]
    (fun _ l => some l) (fun _ => true) 1 "http://e.com/s.xml" 5
    ["http://e.com/s.xml"] [] (by decide)

/-- C9: reconciliation of the Reports Index is idempotent — re-reading the
reconciled entry set against an unchanged filesystem reproduces it exactly —
and retention is sound: no invalid element survives, and every retained entry
carries string `summaryJson`/`resultsDir` fields whose resolved paths both
exist on durable storage. -/
theorem c9_reconciliation_idempotent_and_sound (fs : String → Bool)
    (resolveP : String → String) (stored : StoredIndex) :
    ensureReportsIndex fs resolveP (.runsArray (ensureReportsIndex fs resolveP stored)) =
      ensureReportsIndex fs resolveP stored ∧
    RunEntryVal.invalid ∉ ensureReportsIndex fs resolveP stored ∧
    (∀ sj rd, RunEntryVal.entry sj rd ∈ ensureReportsIndex fs resolveP stored →
      sj ≠ none ∧ rd ≠ none ∧
      (∀ s, sj = some s → fs (resolveP s) = true) ∧
      (∀ r, rd = some r → fs (resolveP r) = true)) := by
  refine ⟨?_, ?_, ?_⟩
  · cases stored <;> simp [ensureReportsIndex, List.filter_filter]
  · intro hmem
    cases stored with
    | absent => cases hmem
    | unparsable => cases hmem
    | notRunsArray => cases hmem
    | runsArray rs =>
      simp only [ensureReportsIndex] at hmem
      have := (List.mem_filter.mp hmem).2
      simp [entryKept] at this
  · intro sj rd hmem
    cases stored with
    | absent => cases hmem
    | unparsable => cases hmem
    | notRunsArray => cases hmem
    | runsArray rs =>
      simp only [ensureReportsIndex] at hmem
      have hkept := (List.mem_filter.mp hmem).2
      cases sj with
      | none => simp [entryKept] at hkept
      | some s =>
        cases rd with
        | none => simp [entryKept] at hkept
        | some r =>
          simp only [entryKept, Bool.and_eq_true] at hkept
          refine ⟨by simp, by simp, ?_, ?_⟩
          · intro s2 hs2
            cases hs2
            exact hkept.1
          · intro r2 hr2
            cases hr2
            exact hkept.2

/-- Witness for C9: a two-element stored array (one valid entry, one invalid)
on an all-files-exist filesystem reconciles idempotently, and the retained
entry's paths are certified to exist. -/
theorem c9_reconciliation_idempotent_and_sound_witness :
    ensureReportsIndex (fun _ => true) (fun q => q)
      (.runsArray (ensureReportsIndex (fun _ => true) (fun q => q)
        (.runsArray [.entry (some "data/reports/a/summary.json") (some "results/a"),
                     .invalid]))) =
      ensureReportsIndex (fun _ => true) (fun q => q)
        (.runsArray [.entry (some "data/reports/a/summary.json") (some "results/a"),
                     .invalid]) ∧
    (fun (_ : String) => true) ((fun (q : String) => q) "data/reports/a/summary.json") = true :=
  ⟨(c9_reconciliation_idempotent_and_sound (fun _ => true) (fun q => q)
      (.runsArray [.entry (some "data/reports/a/summary.json") (some "results/a"),
                   .invalid])).1,
   (((c9_reconciliation_idempotent_and_sound (fun _ => true) (fun q => q)
      (.runsArray [.entry (some "data/reports/a/summary.json") (some "results/a"),
                   .invalid])).2.2 (some "data/reports/a/summary.json") (some "results/a")
      (by decide)).2.2.1 "data/reports/a/summary.json" rfl)⟩

/-- C3 (code bug, evaluated at the failing input): for the failures that
surface inside the per-URL pipeline the claim's mechanism is real — the
settled collection has exactly one outcome per dispatched URL, the final tally
satisfies `successful + failed = dispatched`, and each URL's settled outcome
is a function of that URL's own step behavior alone.  But the claim itself is
defeated by the oversized-page error: under the shipped
`maxPageSize = 8 * 1024 * 1024` the response observer's throw escapes the
per-URL pipeline and the process-level handlers abort the whole run with
`process.exit(1)` — a three-URL run whose second URL receives a 9000000-byte
response aborts with exit code 1 and settles no outcome for the two sibling
URLs, while the same run without that escape settles all three. -/
theorem c3_bulkhead_defeated_by_observer_escape :
    (∀ (urlParses : String → Bool) (enableShots : Bool) (behaviors : List UrlBehavior),
      (runAllSettled urlParses enableShots behaviors).length = behaviors.length ∧
      successfulCount (runAllSettled urlParses enableShots behaviors) +
        failedCount (runAllSettled urlParses enableShots behaviors) = behaviors.length ∧
      ∀ i : Nat, (runAllSettled urlParses enableShots behaviors)[i]? =
        (behaviors[i]?).map (processUrl urlParses enableShots)) ∧
    runAudits (fun _ => true) false
      [okBehavior "http://a.example/" 1 3, oversizedBehavior,
       okBehavior "http://c.example/" 3 3] = .aborted 1 ∧
    runAudits (fun _ => true) false
      [okBehavior "http://a.example/" 1 3, { oversizedBehavior with observerEscape := none },
       okBehavior "http://c.example/" 3 3] =
      .completed [.fulfilled (.success "http://a.example/"),
                  .fulfilled (.success "http://b.example/"),
                  .fulfilled (.success "http://c.example/")] := by
  refine ⟨?_, by decide, by decide⟩
  intro urlParses enableShots behaviors
  refine ⟨List.length_map _ _, ?_, ?_⟩
  · have hle : successfulCount (runAllSettled urlParses enableShots behaviors) ≤
        (runAllSettled urlParses enableShots behaviors).length :=
      List.length_filter_le _ _
    have hlen : (runAllSettled urlParses enableShots behaviors).length = behaviors.length :=
      List.length_map _ _
    unfold failedCount
    omega
  · intro i
    simp [runAllSettled]

/-- C4 (evaluation at the failing input): under the shipped
`maxPageSize = 8 * 1024 * 1024`, the response observer is installed, and a
response advertising a content length of 9000000 bytes makes the installed
listener throw the `Page size exceeds limit` error.  The throw happens inside
the automation library's `response` event dispatch — a `page.on` listener —
and not inside the `try` of `processUrl`, so it cannot become that URL's
failure Page Result. -/
theorem c4_oversize_listener_throws :
    responseObserverInstalled (8 * 1024 * 1024) = true ∧
    responseHandlerCheck (8 * 1024 * 1024) (some "9000000") =
      .error (jsNewError "Page size exceeds limit: 9000000 bytes") := by
  exact ⟨by decide, by decide⟩

/-- C6: for every URL the external parser resolves to a hostname, the filter
passes it exactly when (a) no block-list entry matches the lowercased hostname
— the block-list is decided first, so any match rejects regardless of the
allow-list — and (b) the allow-list side holds: an empty allow-list passes
every non-blocked URL, and a non-empty one requires the hostname to equal an
entry or to end with `'.'` followed by the entry (a subdomain), entries and
hostname being compared lowercased. -/
theorem c6_filter_characterization (isIP6 : String → Bool)
    (hostOf : String → Option String) (url rawHost : String)
    (allowedDomains blockedDomains : List String)
    (h : hostOf url = some rawHost) :
    isUrlAllowed isIP6 hostOf url allowedDomains blockedDomains = true ↔
      ((∀ b ∈ blockedDomains, blockedEntryMatches isIP6 (jsToLower rawHost) b = false) ∧
       (allowedDomains = [] ∨ ∃ a ∈ allowedDomains,
         jsToLower rawHost = jsToLower a ∨
           jsEndsWith (jsToLower rawHost) ("." ++ jsToLower a) = true)) := by
  unfold isUrlAllowed
  rw [h]
  rcases hany : blockedDomains.any (blockedEntryMatches isIP6 (jsToLower rawHost)) with _ | _
  · have hnb : ∀ b ∈ blockedDomains, blockedEntryMatches isIP6 (jsToLower rawHost) b = false := by
      intro b hb
      rcases hx : blockedEntryMatches isIP6 (jsToLower rawHost) b with _ | _
      · rfl
      · exfalso
        have : blockedDomains.any (blockedEntryMatches isIP6 (jsToLower rawHost)) = true :=
          List.any_eq_true.mpr ⟨b, hb, hx⟩
        rw [this] at hany
        cases hany
    simp only [hany, Bool.false_eq_true, if_false]
    cases allowedDomains with
    | nil =>
      constructor
      · intro _
        exact ⟨hnb, Or.inl rfl⟩
      · intro _
        rfl
    | cons a as =>
      simp only [List.isEmpty_cons, Bool.false_eq_true, if_false]
      constructor
      · intro hla
        refine ⟨hnb, Or.inr ?_⟩
        obtain ⟨x, hx, hm⟩ := List.any_eq_true.mp hla
        refine ⟨x, hx, ?_⟩
        simpa [hostMatchesDomain, beq_iff_eq] using hm
      · rintro ⟨-, hall⟩
        rcases hall with hnil | ⟨x, hx, hm⟩
        · cases hnil
        · apply List.any_eq_true.mpr
          refine ⟨x, hx, ?_⟩
          simpa [hostMatchesDomain, beq_iff_eq] using hm
  · simp only [hany, if_true]
    constructor
    · intro hfalse
      cases hfalse
    · rintro ⟨hnb, -⟩
      obtain ⟨b, hb, hm⟩ := List.any_eq_true.mp hany
      rw [hnb b hb] at hm
      cases hm

/-- Witness for C6: with allow-list `["example.com"]` and an empty block-list,
the URL whose hostname is `sub.example.com` passes the filter as a
subdomain. -/
theorem c6_filter_characterization_witness :
    isUrlAllowed (fun _ => false) (fun _ => some "sub.example.com")
      "http://sub.example.com/" ["example.com"] [] = true :=
  (c6_filter_characterization (fun _ => false) (fun _ => some "sub.example.com")
    "http://sub.example.com/" "sub.example.com" ["example.com"] [] rfl).mpr
    ⟨(fun b hb => absurd hb (List.not_mem_nil b)),
     Or.inr ⟨"example.com", by decide, Or.inr (by decide)⟩⟩

theorem append_around_dash_ne_empty (a b : String) : a ++ "-" ++ b ≠ "" := by
  intro hcontra
  have hd : (a ++ "-" ++ b).data = ("" : String).data := congrArg String.data hcontra
  rw [String.data_append, String.data_append] at hd
  rcases List.append_eq_nil.mp hd with ⟨hd1, -⟩
  rcases List.append_eq_nil.mp hd1 with ⟨-, hd2⟩
  cases hd2

theorem url_now_ne_empty (nowStr : String) : "url-" ++ nowStr ≠ "" := by
  intro hcontra
  have hd : ("url-" ++ nowStr).data = ("" : String).data := congrArg String.data hcontra
  rw [String.data_append] at hd
  rcases List.append_eq_nil.mp hd with ⟨hd1, -⟩
  cases hd1

theorem filename_final_step (base3 nowStr : String) :
    ((if base3 = "" then Except.ok ("url-" ++ nowStr) else Except.ok base3) :
      Except String String).isOk = true ∧
    ((if base3 = "" then Except.ok ("url-" ++ nowStr) else Except.ok base3) :
      Except String String) ≠ Except.ok ("" : String) := by
  by_cases hb : base3 = ""
  · rw [if_pos hb]
    exact ⟨rfl, fun hcontra => url_now_ne_empty _ (Except.ok.inj hcontra)⟩
  · rw [if_neg hb]
    exact ⟨rfl, fun hcontra => hb (Except.ok.inj hcontra)⟩

/-- C10: `generateBaseFilename` throws exactly when its (string) argument
trims to the empty string — a non-string argument is rejected by the same
initial guard in JavaScript — and for every other input, including strings the
URL parser rejects (which take the sanitized-plus-hash fallback path), it
returns a non-empty filename without throwing. -/
theorem c10_generateBaseFilename_total (nfkd sha1hex : String → String)
    (parseU : String → Option UrlParts) (nowStr : String) (url : String) :
    (jsTrim url = "" →
      generateBaseFilename nfkd sha1hex parseU nowStr url =
        .error "URL must be a non-empty string") ∧
    (jsTrim url ≠ "" →
      (generateBaseFilename nfkd sha1hex parseU nowStr url).isOk = true ∧
      generateBaseFilename nfkd sha1hex parseU nowStr url ≠ .ok "") := by
  constructor
  · intro hempty
    unfold generateBaseFilename
    rw [if_pos hempty]
  · intro hne
    unfold generateBaseFilename
    rw [if_neg hne]
    rcases hp : parseU (jsTrim url) with _ | parsed
    · simp only [hp]
      refine ⟨rfl, ?_⟩
      intro hcontra
      exact append_around_dash_ne_empty _ _ (Except.ok.inj hcontra)
    · simp only [hp]
      exact filename_final_step _ _

/-- Witness for C10: the all-whitespace string is rejected with the exact
error message, while a URL-parser-rejected string takes the fallback path and
yields a non-empty name without throwing. -/
theorem c10_generateBaseFilename_total_witness :
    generateBaseFilename (fun q => q) (fun _ => "da39a3ee5e6b4b0d") (fun _ => none) "0" "   " =
      .error "URL must be a non-empty string" ∧
    (generateBaseFilename (fun q => q) (fun _ => "da39a3ee5e6b4b0d") (fun _ => none) "0"
      "not a url").isOk = true ∧
    generateBaseFilename (fun q => q) (fun _ => "da39a3ee5e6b4b0d") (fun _ => none) "0"
      "not a url" ≠ .ok "" :=
  ⟨(c10_generateBaseFilename_total (fun q => q) (fun _ => "da39a3ee5e6b4b0d")
      (fun _ => none) "0" "   ").1 (by decide),
   (c10_generateBaseFilename_total (fun q => q) (fun _ => "da39a3ee5e6b4b0d")
      (fun _ => none) "0" "not a url").2 (by decide)⟩

theorem and_mask_eq_shift (x s : Nat) (hs : s ≤ 32) (hx : x < 2 ^ 32) :
    x &&& (2 ^ 32 - 2 ^ s) = (x >>> s) <<< s := by
  have hmask : (2 : Nat) ^ 32 - 2 ^ s = (2 ^ (32 - s) - 1) <<< s := by
    rw [Nat.shiftLeft_eq, Nat.sub_mul, Nat.one_mul, ← Nat.pow_add]
    congr 2
    omega
  apply Nat.eq_of_testBit_eq
  intro i
  rw [Nat.testBit_and, hmask, Nat.testBit_shiftLeft, Nat.testBit_shiftLeft,
      Nat.testBit_shiftRight, Nat.testBit_two_pow_sub_one]
  by_cases hsi : s ≤ i
  · have hadd : s + (i - s) = i := by omega
    by_cases hi32 : i < 32
    · have hlt : i - s < 32 - s := by omega
      simp [hsi, hlt, hadd]
    · have hxb : x.testBit i = false :=
        Nat.testBit_lt_two_pow
          (Nat.lt_of_lt_of_le hx (Nat.pow_le_pow_right (by norm_num) (by omega)))
      simp [hsi, hadd, hxb]
  · simp [hsi]

theorem masked_eq_iff_shift (x y s : Nat) (hs : s ≤ 32) (hx : x < 2 ^ 32) (hy : y < 2 ^ 32) :
    (x &&& (2 ^ 32 - 2 ^ s) = y &&& (2 ^ 32 - 2 ^ s)) ↔ x >>> s = y >>> s := by
  rw [and_mask_eq_shift x s hs hx, and_mask_eq_shift y s hs hy]
  constructor
  · intro h
    have h2 := congrArg (fun t => t >>> s) h
    simpa using h2
  · intro h
    rw [h]

theorem v4Bits_eq_canon (a b c d : Int) (ha : 0 ≤ a) (ha2 : a < 256) (hb : 0 ≤ b)
    (hb2 : b < 256) (hc : 0 ≤ c) (hc2 : c < 256) (hd : 0 ≤ d) (hd2 : d < 256) :
    v4Bits [some a, some b, some c, some d] = canonV4 a.toNat b.toNat c.toNat d.toNat := by
  have hu : ∀ (x : Int), 0 ≤ x → x < 256 → toUint32 (some x) = x.toNat := by
    intro x hx hx2
    have hrfl : toUint32 (some x) = (x % (2 : Int) ^ 32).toNat := rfl
    rw [hrfl, Int.emod_eq_of_lt hx (by omega)]
  have hA : a.toNat < 256 := by omega
  have hB : b.toNat < 256 := by omega
  have hC : c.toNat < 256 := by omega
  have hD : d.toNat < 256 := by omega
  have hv : v4Bits [some a, some b, some c, some d] =
      ((toUint32 (some a) <<< 24) % 2 ^ 32) ||| ((toUint32 (some b) <<< 16) % 2 ^ 32) |||
        ((toUint32 (some c) <<< 8) % 2 ^ 32) ||| toUint32 (some d) := rfl
  rw [hv, hu a ha ha2, hu b hb hb2, hu c hc hc2, hu d hd hd2]
  rw [Nat.shiftLeft_eq, Nat.shiftLeft_eq, Nat.shiftLeft_eq]
  have hlt1 : a.toNat * 2 ^ 24 < 2 ^ 32 := by norm_num; omega
  have hlt2 : b.toNat * 2 ^ 16 < 2 ^ 32 := by norm_num; omega
  have hlt3 : c.toNat * 2 ^ 8 < 2 ^ 32 := by norm_num; omega
  rw [Nat.mod_eq_of_lt hlt1, Nat.mod_eq_of_lt hlt2, Nat.mod_eq_of_lt hlt3]
  rw [Nat.mul_comm a.toNat (2 ^ 24), Nat.mul_comm b.toNat (2 ^ 16), Nat.mul_comm c.toNat (2 ^ 8)]
  rw [Nat.or_assoc]
  have e1 : (2 ^ 8 * c.toNat) ||| d.toNat = 2 ^ 8 * c.toNat + d.toNat :=
    (Nat.mul_add_lt_is_or (by norm_num; omega) _).symm
  rw [e1]
  have e2 : (2 ^ 16 * b.toNat) ||| (2 ^ 8 * c.toNat + d.toNat) =
      2 ^ 16 * b.toNat + (2 ^ 8 * c.toNat + d.toNat) :=
    (Nat.mul_add_lt_is_or (by norm_num; omega) _).symm
  rw [Nat.or_assoc, e2]
  have e3 : (2 ^ 24 * a.toNat) ||| (2 ^ 16 * b.toNat + (2 ^ 8 * c.toNat + d.toNat)) =
      2 ^ 24 * a.toNat + (2 ^ 16 * b.toNat + (2 ^ 8 * c.toNat + d.toNat)) :=
    (Nat.mul_add_lt_is_or (by norm_num; omega) _).symm
  rw [e3]
  unfold canonV4
  ring

theorem canonV4_lt (a b c d : Nat) (ha : a < 256) (hb : b < 256) (hc : c < 256)
    (hd : d < 256) : canonV4 a b c d < 2 ^ 32 := by
  unfold canonV4
  norm_num
  omega

theorem isIpInCidr_v4_eval (isIP6 : String → Bool) (host cidr net pStr : String)
    (na nb nc nd ia ib ic id2 p : Int)
    (hsplit : jsSplitChar cidr '/' = [net, pStr])
    (hdot : jsContainsChar net '.' = true)
    (hcolon : jsContainsChar net ':' = false)
    (hnp : (jsSplitChar net '.').map jsNumber = [some na, some nb, some nc, some nd])
    (hip : (jsSplitChar host '.').map jsNumber = [some ia, some ib, some ic, some id2])
    (hp : jsParseInt pStr = some p) (hp0 : 0 ≤ p) (hp2 : p ≤ 32) :
    isIpInCidr isIP6 host cidr =
      ((v4Bits [some na, some nb, some nc, some nd] &&& v4Mask (some p)) ==
        (v4Bits [some ia, some ib, some ic, some id2] &&& v4Mask (some p))) := by
  have h1 : ¬ (p < 0) := by omega
  have h2 : ¬ (32 < p) := by omega
  unfold isIpInCidr
  simp only [hsplit, List.headD_cons, List.drop_succ_cons, List.drop_zero, hdot, hcolon,
    Bool.not_false, Bool.and_true, hp, hnp, hip, jsNumLt, jsNumGt, h1, h2, decide_False,
    Bool.or_false, Bool.false_or, if_true, if_false]
  simp [h1, h2]

theorem bitsOf_length (k n : Nat) : (bitsOf k n).length = k := by
  simp [bitsOf]

theorem bitsOf_getElem_opt (k n i : Nat) (h : i < k) :
    (bitsOf k n)[i]? = some (bitChar (n.testBit (k - 1 - i))) := by
  unfold bitsOf
  rw [List.getElem?_map, List.getElem?_range h]
  rfl

theorem bitChar_inj (a b : Bool) (h : bitChar a = bitChar b) : a = b := by
  cases a <;> cases b <;> revert h <;> decide

theorem bitsOf_zero (k : Nat) : bitsOf k 0 = List.replicate k '0' := by
  refine List.eq_replicate_iff.mpr ⟨by simp [bitsOf], ?_⟩
  intro b hb
  unfold bitsOf at hb
  obtain ⟨i, -, rfl⟩ := List.mem_map.mp hb
  simp [bitChar, Nat.zero_testBit]

theorem bitsOf_succ (k n : Nat) :
    bitsOf (k + 1) n = bitsOf k (n / 2) ++ [bitChar (n.testBit 0)] := by
  unfold bitsOf
  rw [List.range_succ, List.map_append]
  congr 1
  · apply List.map_congr_left
    intro i hi
    have hik : i < k := List.mem_range.mp hi
    have he : k + 1 - 1 - i = (k - 1 - i) + 1 := by omega
    rw [he, Nat.testBit_succ]
  · simp

theorem bitsOf_cons (k n : Nat) :
    bitsOf (k + 1) n = bitChar (n.testBit k) :: bitsOf k n := by
  unfold bitsOf
  rw [List.range_succ_eq_map]
  simp only [List.map_cons, List.map_map]
  congr 1
  apply List.map_congr_left
  intro i hi
  have he : k + 1 - 1 - (i + 1) = k - 1 - i := by omega
  simp only [Function.comp, Nat.succ_eq_add_one, he]

theorem binDigitsAux_pad (k : Nat) :
    ∀ (fuel n : Nat), n < 2 ^ k → k ≤ fuel →
      List.replicate (k - (binDigitsAux fuel n).length) '0' ++ binDigitsAux fuel n =
        bitsOf k n := by
  induction k with
  | zero =>
    intro fuel n hn _
    have hn0 : n = 0 := by omega
    subst hn0
    cases fuel with
    | zero => simp [binDigitsAux, bitsOf]
    | succ f => simp [binDigitsAux, bitsOf]
  | succ k ih =>
    intro fuel n hn hf
    cases fuel with
    | zero => omega
    | succ f =>
      by_cases hn0 : n = 0
      · subst hn0
        simp [binDigitsAux, bitsOf_zero]
      · have hstep : binDigitsAux (f + 1) n =
            binDigitsAux f (n / 2) ++ [if n % 2 = 1 then '1' else '0'] := by
          simp [binDigitsAux, hn0]
        have hhalf : n / 2 < 2 ^ k := by
          have hp : (2 : Nat) ^ (k + 1) = 2 ^ k * 2 := by rw [Nat.pow_succ]
          omega
        have hrec := ih f (n / 2) hhalf (by omega)
        have hc : (if n % 2 = 1 then '1' else '0') = bitChar (n.testBit 0) := by
          simp [bitChar, Nat.testBit_zero]
        rw [hstep, hc, List.length_append, List.length_singleton]
        have harith : k + 1 - ((binDigitsAux f (n / 2)).length + 1) =
            k - (binDigitsAux f (n / 2)).length := by omega
        rw [harith, ← List.append_assoc, hrec, ← bitsOf_succ]

theorem bitsOf_high_pad (m k n : Nat) (h : n < 2 ^ k) :
    bitsOf (m + k) n = List.replicate m '0' ++ bitsOf k n := by
  induction m with
  | zero => simp
  | succ m ihm =>
    have hmk : m + 1 + k = (m + k) + 1 := by omega
    rw [hmk, bitsOf_cons, ihm]
    have hb : n.testBit (m + k) = false :=
      Nat.testBit_lt_two_pow
        (Nat.lt_of_lt_of_le h (Nat.pow_le_pow_right (by norm_num) (by omega)))
    rw [hb]
    simp [List.replicate_succ, bitChar]

theorem v6GroupBits_data (g : Nat) (hg : g < 2 ^ 16) :
    (v6GroupBits (some g)).data = bitsOf 16 g := by
  by_cases hg0 : g = 0
  · subst hg0
    decide
  · have hwide : v6GroupBits (some g) = jsPadStart ⟨binDigitsAux g g⟩ 16 '0' := by
      simp [v6GroupBits, natToBin, hg0]
    rw [hwide]
    have hk1 : g < 2 ^ min g 16 := by
      by_cases h16 : 16 ≤ g
      · rw [Nat.min_eq_right h16]
        exact hg
      · rw [Nat.min_eq_left (by omega)]
        exact Nat.lt_two_pow g
    have hk2 : min g 16 ≤ g := Nat.min_le_left g 16
    have hk3 : min g 16 ≤ 16 := Nat.min_le_right g 16
    have hpad := binDigitsAux_pad (min g 16) g g hk1 hk2
    have hlen : (binDigitsAux g g).length ≤ min g 16 := by
      have hl := congrArg List.length hpad
      rw [List.length_append, List.length_replicate, bitsOf_length] at hl
      omega
    have hhigh : bitsOf 16 g =
        List.replicate (16 - min g 16) '0' ++ bitsOf (min g 16) g := by
      have hh := bitsOf_high_pad (16 - min g 16) (min g 16) g hk1
      have h16e : 16 - min g 16 + min g 16 = 16 := by omega
      rwa [h16e] at hh
    have harith : 16 - (binDigitsAux g g).length =
        (16 - min g 16) + (min g 16 - (binDigitsAux g g).length) := by omega
    show List.replicate (16 - (binDigitsAux g g).length) '0' ++ binDigitsAux g g = bitsOf 16 g
    rw [hhigh, ← hpad, ← List.append_assoc, ← List.replicate_add, ← harith]

theorem bitsOf_append (a b x y : Nat) (hy : y < 2 ^ b) :
    bitsOf a x ++ bitsOf b y = bitsOf (a + b) (x * 2 ^ b + y) := by
  apply List.ext_getElem?
  intro i
  by_cases hi : i < a + b
  · rw [bitsOf_getElem_opt (a + b) _ i hi]
    by_cases hia : i < a
    · rw [List.getElem?_append_left (by rw [bitsOf_length]; exact hia)]
      rw [bitsOf_getElem_opt a x i hia]
      rw [Nat.mul_comm x (2 ^ b), Nat.testBit_mul_pow_two_add x hy (a + b - 1 - i)]
      rw [if_neg (by omega)]
      have he : a + b - 1 - i - b = a - 1 - i := by omega
      rw [he]
    · rw [List.getElem?_append_right (by rw [bitsOf_length]; omega)]
      rw [bitsOf_length]
      rw [bitsOf_getElem_opt b y (i - a) (by omega)]
      rw [Nat.mul_comm x (2 ^ b), Nat.testBit_mul_pow_two_add x hy (a + b - 1 - i)]
      rw [if_pos (by omega)]
      have he : b - 1 - (i - a) = a + b - 1 - i := by omega
      rw [he]
  · have hl1 : (bitsOf a x ++ bitsOf b y).length ≤ i := by
      rw [List.length_append, bitsOf_length, bitsOf_length]; omega
    have hl2 : (bitsOf (a + b) (x * 2 ^ b + y)).length ≤ i := by
      rw [bitsOf_length]; omega
    rw [List.getElem?_eq_none hl1, List.getElem?_eq_none hl2]

theorem canonV6_foldl_init (gs : List Nat) :
    ∀ a : Nat, gs.foldl (fun acc g => acc * 2 ^ 16 + g) a =
      a * 2 ^ (16 * gs.length) + canonV6 gs := by
  induction gs with
  | nil => intro a; simp [canonV6]
  | cons g tl ih =>
    intro a
    rw [List.foldl_cons, ih (a * 2 ^ 16 + g)]
    have h2 : canonV6 (g :: tl) = (0 * 2 ^ 16 + g) * 2 ^ (16 * tl.length) + canonV6 tl := by
      rw [canonV6, List.foldl_cons]
      exact ih (0 * 2 ^ 16 + g)
    rw [h2, List.length_cons]
    have hp : (2 : Nat) ^ (16 * (tl.length + 1)) = 2 ^ (16 * tl.length) * 2 ^ 16 := by
      rw [← Nat.pow_add, Nat.mul_add, Nat.mul_one]
    rw [hp]
    ring

theorem canonV6_cons (g : Nat) (tl : List Nat) :
    canonV6 (g :: tl) = g * 2 ^ (16 * tl.length) + canonV6 tl := by
  rw [canonV6, List.foldl_cons, canonV6_foldl_init tl (0 * 2 ^ 16 + g)]
  ring

theorem canonV6_lt_pow (gs : List Nat) (h : ∀ g ∈ gs, g < 2 ^ 16) :
    canonV6 gs < 2 ^ (16 * gs.length) := by
  induction gs with
  | nil => simp [canonV6]
  | cons g tl ih =>
    rw [canonV6_cons, List.length_cons]
    have hg : g < 2 ^ 16 := h g (by simp)
    have htl : canonV6 tl < 2 ^ (16 * tl.length) := ih (fun x hx => h x (by simp [hx]))
    have hp : (2 : Nat) ^ (16 * (tl.length + 1)) = 2 ^ (16 * tl.length) * 2 ^ 16 := by
      rw [← Nat.pow_add, Nat.mul_add, Nat.mul_one]
    rw [hp]
    calc g * 2 ^ (16 * tl.length) + canonV6 tl
        < g * 2 ^ (16 * tl.length) + 2 ^ (16 * tl.length) := by omega
      _ = (g + 1) * 2 ^ (16 * tl.length) := by ring
      _ ≤ 2 ^ 16 * 2 ^ (16 * tl.length) := Nat.mul_le_mul_right _ (by omega)
      _ = 2 ^ (16 * tl.length) * 2 ^ 16 := by ring

theorem foldl_append_data (l : List String) :
    ∀ acc : String, (l.foldl (fun r s => r ++ s) acc).data =
      acc.data ++ (l.map String.data).flatten := by
  induction l with
  | nil => intro acc; simp
  | cons s tl ih =>
    intro acc
    rw [List.foldl_cons, ih (acc ++ s)]
    simp [String.data_append, List.append_assoc]

theorem join_data (l : List String) :
    (String.join l).data = (l.map String.data).flatten := by
  have h : String.join l = l.foldl (fun r s => r ++ s) "" := rfl
  rw [h, foldl_append_data l ""]
  rfl

theorem groups_join_bits (gs : List Nat) (hbound : ∀ g ∈ gs, g < 2 ^ 16) :
    ((gs.map (fun g => v6GroupBits (some g))).map String.data).flatten =
      bitsOf (16 * gs.length) (canonV6 gs) := by
  induction gs with
  | nil => simp [bitsOf]
  | cons g tl ih =>
    simp only [List.map_cons, List.flatten_cons]
    rw [v6GroupBits_data g (hbound g (by simp)), ih (fun x hx => hbound x (by simp [hx]))]
    rw [bitsOf_append 16 (16 * tl.length) g (canonV6 tl)
      (canonV6_lt_pow tl (fun x hx => hbound x (by simp [hx])))]
    rw [canonV6_cons, List.length_cons]
    congr 1
    ring

theorem ipv6ToBinary_data (addr : String) (gs : List Nat)
    (hparse : (expandV6Parts addr).map (fun part => jsParseHex (jsPadStart part 4 '0')) =
      gs.map some)
    (hbound : ∀ g ∈ gs, g < 2 ^ 16) :
    (ipv6ToBinary addr).data = bitsOf (16 * gs.length) (canonV6 gs) := by
  have h1 : ipv6ToBinary addr = String.join ((expandV6Parts addr).map
      (fun part => v6GroupBits (jsParseHex (jsPadStart part 4 '0')))) := rfl
  have h2 : (expandV6Parts addr).map
      (fun part => v6GroupBits (jsParseHex (jsPadStart part 4 '0'))) =
      gs.map (fun g => v6GroupBits (some g)) := by
    have h3 : (expandV6Parts addr).map
        (fun part => v6GroupBits (jsParseHex (jsPadStart part 4 '0'))) =
        ((expandV6Parts addr).map (fun part => jsParseHex (jsPadStart part 4 '0'))).map
          v6GroupBits := by
      rw [List.map_map]
      rfl
    rw [h3, hparse, List.map_map]
    rfl
  rw [h1, h2, join_data, groups_join_bits gs hbound]

theorem take_bitsOf_iff (p V W : Nat) (hp : p ≤ 128) (hV : V < 2 ^ 128) (hW : W < 2 ^ 128) :
    ((bitsOf 128 V).take p = (bitsOf 128 W).take p) ↔ V >>> (128 - p) = W >>> (128 - p) := by
  constructor
  · intro h
    apply Nat.eq_of_testBit_eq
    intro j
    rw [Nat.testBit_shiftRight, Nat.testBit_shiftRight]
    by_cases hj : j < p
    · have h1 := congrArg (fun l => l[p - 1 - j]?) h
      simp only at h1
      have hlt : p - 1 - j < p := by omega
      rw [List.getElem?_take, List.getElem?_take, if_pos hlt, if_pos hlt,
          bitsOf_getElem_opt 128 V (p - 1 - j) (by omega),
          bitsOf_getElem_opt 128 W (p - 1 - j) (by omega),
          Option.some.injEq] at h1
      have h2 := bitChar_inj _ _ h1
      have he : 128 - 1 - (p - 1 - j) = 128 - p + j := by omega
      rwa [he] at h2
    · have hge : (128 : Nat) ≤ 128 - p + j := by omega
      rw [Nat.testBit_lt_two_pow
            (Nat.lt_of_lt_of_le hV (Nat.pow_le_pow_right (by norm_num) hge)),
          Nat.testBit_lt_two_pow
            (Nat.lt_of_lt_of_le hW (Nat.pow_le_pow_right (by norm_num) hge))]
  · intro h
    apply List.ext_getElem?
    intro i
    by_cases hip : i < p
    · rw [List.getElem?_take, List.getElem?_take, if_pos hip, if_pos hip,
          bitsOf_getElem_opt 128 V i (by omega), bitsOf_getElem_opt 128 W i (by omega)]
      have hbit : V.testBit (128 - 1 - i) = W.testBit (128 - 1 - i) := by
        have h2 := congrArg (fun t => t.testBit (p - 1 - i)) h
        simp only at h2
        rw [Nat.testBit_shiftRight, Nat.testBit_shiftRight] at h2
        have he : 128 - p + (p - 1 - i) = 128 - 1 - i := by omega
        rwa [he] at h2
      rw [hbit]
    · have hl1 : ((bitsOf 128 V).take p).length ≤ i := by
        rw [List.length_take, bitsOf_length]; omega
      have hl2 : ((bitsOf 128 W).take p).length ≤ i := by
        rw [List.length_take, bitsOf_length]; omega
      rw [List.getElem?_eq_none hl1, List.getElem?_eq_none hl2]

theorem isIpInCidr_v6_iff (isIP6 : String → Bool) (host cidr net pStr : String) (p : Int)
    (ngs igs : List Nat)
    (hsplit : jsSplitChar cidr '/' = [net, pStr])
    (hcolon : jsContainsChar net ':' = true)
    (hp : jsParseInt pStr = some p) (hp0 : 0 ≤ p) (hp2 : p ≤ 128)
    (h6net : isIP6 net = true) (h6ip : isIP6 host = true)
    (hnparse : (expandV6Parts net).map (fun part => jsParseHex (jsPadStart part 4 '0')) =
      ngs.map some)
    (hiparse : (expandV6Parts host).map (fun part => jsParseHex (jsPadStart part 4 '0')) =
      igs.map some)
    (hnlen : ngs.length = 8) (hilen : igs.length = 8)
    (hnb : ∀ g ∈ ngs, g < 2 ^ 16) (hib : ∀ g ∈ igs, g < 2 ^ 16) :
    (isIpInCidr isIP6 host cidr = true ↔ inCidrV6 (canonV6 ngs) (canonV6 igs) p.toNat) := by
  have hnd : (ipv6ToBinary net).data = bitsOf 128 (canonV6 ngs) := by
    have hx := ipv6ToBinary_data net ngs hnparse hnb
    rwa [hnlen] at hx
  have hid : (ipv6ToBinary host).data = bitsOf 128 (canonV6 igs) := by
    have hx := ipv6ToBinary_data host igs hiparse hib
    rwa [hilen] at hx
  have h1 : ¬ (p < 0) := by omega
  have h2 : ¬ (128 < p) := by omega
  have hnlt : canonV6 ngs < 2 ^ 128 := by
    have hx := canonV6_lt_pow ngs hnb
    rwa [hnlen] at hx
  have hilt : canonV6 igs < 2 ^ 128 := by
    have hx := canonV6_lt_pow igs hib
    rwa [hilen] at hx
  unfold isIpInCidr
  rw [hsplit]
  simp only [List.headD_cons, List.drop_succ_cons, List.drop_zero, hcolon, Bool.not_true,
    Bool.and_false, hp, jsNumLt, jsNumGt, h1, h2, decide_False, Bool.or_false, Bool.false_or,
    h6net, h6ip, Bool.not_true, Bool.or_self, if_false, if_true, Bool.false_eq_true]
  rw [hnd, hid, bitsOf_length, bitsOf_length]
  simp only [bne_self_eq_false, Bool.or_self, Bool.false_eq_true, if_false]
  have htl : v6TakeLen (some p) = p.toNat := rfl
  rw [htl]
  have hjt : ∀ (s : String) (n : Nat), jsTake s n = ⟨s.data.take n⟩ := fun _ _ => rfl
  rw [hjt, hjt, hnd, hid]
  rw [beq_iff_eq]
  constructor
  · intro hx
    have hdata := congrArg String.data hx
    simp only at hdata
    exact (take_bitsOf_iff p.toNat (canonV6 ngs) (canonV6 igs) (by omega) hnlt hilt).mp hdata
  · intro hx
    have hdata := (take_bitsOf_iff p.toNat (canonV6 ngs) (canonV6 igs)
      (by omega) hnlt hilt).mpr hx
    exact congrArg String.mk hdata

/-- Exact characterization of IPv4 CIDR blocking for prefix lengths between 1
and 32: the entry rejects the dotted-quad hostname exactly when the address's
leading `prefixLength` bits agree with the network address's. -/
theorem isUrlAllowed_v4_cidr (isIP6 : String → Bool)
    (hostOf : String → Option String) (url host cidr net pStr : String)
    (na nb nc nd ia ib ic id2 p : Int)
    (hhost : hostOf url = some host)
    (hhlower : jsToLower host = host)
    (hclower : jsToLower cidr = cidr)
    (hslash : jsContainsChar cidr '/' = true)
    (hsplit : jsSplitChar cidr '/' = [net, pStr])
    (hdot : jsContainsChar net '.' = true)
    (hcolon : jsContainsChar net ':' = false)
    (hnp : (jsSplitChar net '.').map jsNumber = [some na, some nb, some nc, some nd])
    (hip : (jsSplitChar host '.').map jsNumber = [some ia, some ib, some ic, some id2])
    (hna : 0 ≤ na) (hna2 : na < 256) (hnb : 0 ≤ nb) (hnb2 : nb < 256)
    (hnc : 0 ≤ nc) (hnc2 : nc < 256) (hnd : 0 ≤ nd) (hnd2 : nd < 256)
    (hia : 0 ≤ ia) (hia2 : ia < 256) (hib : 0 ≤ ib) (hib2 : ib < 256)
    (hic : 0 ≤ ic) (hic2 : ic < 256) (hid : 0 ≤ id2) (hidb : id2 < 256)
    (hp : jsParseInt pStr = some p) (hp1 : 1 ≤ p) (hp2 : p ≤ 32) :
    (inCidrV4 (canonV4 na.toNat nb.toNat nc.toNat nd.toNat)
        (canonV4 ia.toNat ib.toNat ic.toNat id2.toNat) p.toNat →
      ∀ allowedDomains, isUrlAllowed isIP6 hostOf url allowedDomains [cidr] = false) ∧
    (¬ inCidrV4 (canonV4 na.toNat nb.toNat nc.toNat nd.toNat)
        (canonV4 ia.toNat ib.toNat ic.toNat id2.toNat) p.toNat →
      isUrlAllowed isIP6 hostOf url [] [cidr] = true) := by
  have hmask : v4Mask (some p) = 2 ^ 32 - 2 ^ (32 - p.toNat) := by
    have hrfl : v4Mask (some p) = 2 ^ 32 - 2 ^ (((32 : Int) - p).toNat % 32) := rfl
    have ht : ((32 : Int) - p).toNat = 32 - p.toNat := by omega
    have hlt : 32 - p.toNat < 32 := by omega
    rw [hrfl, ht, Nat.mod_eq_of_lt hlt]
  have heval := isIpInCidr_v4_eval isIP6 host cidr net pStr na nb nc nd ia ib ic id2 p
    hsplit hdot hcolon hnp hip hp (by omega) hp2
  rw [v4Bits_eq_canon na nb nc nd hna hna2 hnb hnb2 hnc hnc2 hnd hnd2,
      v4Bits_eq_canon ia ib ic id2 hia hia2 hib hib2 hic hic2 hid hidb, hmask] at heval
  have hiff : isIpInCidr isIP6 host cidr = true ↔
      inCidrV4 (canonV4 na.toNat nb.toNat nc.toNat nd.toNat)
        (canonV4 ia.toNat ib.toNat ic.toNat id2.toNat) p.toNat := by
    rw [heval, beq_iff_eq]
    exact masked_eq_iff_shift _ _ (32 - p.toNat) (by omega)
      (canonV4_lt _ _ _ _ (by omega) (by omega) (by omega) (by omega))
      (canonV4_lt _ _ _ _ (by omega) (by omega) (by omega) (by omega))
  have hbm : blockedEntryMatches isIP6 host cidr = isIpInCidr isIP6 host cidr := by
    unfold blockedEntryMatches
    rw [hclower]
    simp [hslash]
  constructor
  · intro hin allowedDomains
    have htrue : isIpInCidr isIP6 host cidr = true := hiff.mpr hin
    unfold isUrlAllowed
    rw [hhost]
    simp [hbm, htrue, hhlower]
  · intro hout
    have hfalse : isIpInCidr isIP6 host cidr = false := by
      rcases hx : isIpInCidr isIP6 host cidr with _ | _
      · rfl
      · exact absurd (hiff.mp hx) hout
    unfold isUrlAllowed
    rw [hhost]
    simp [hbm, hfalse, hhlower]

/-- Exact characterization of IPv6 CIDR blocking for prefix lengths between 0
and 128 against hostnames and networks written as (possibly `::`-compressed)
hexadecimal groups: the entry rejects the hostname exactly when the two
128-bit addresses' leading `prefixLength` bits agree. -/
theorem isUrlAllowed_v6_cidr (isIP6 : String → Bool)
    (hostOf : String → Option String) (url host cidr net pStr : String) (p : Int)
    (ngs igs : List Nat)
    (hhost : hostOf url = some host)
    (hhlower : jsToLower host = host)
    (hclower : jsToLower cidr = cidr)
    (hslash : jsContainsChar cidr '/' = true)
    (hsplit : jsSplitChar cidr '/' = [net, pStr])
    (hcolon : jsContainsChar net ':' = true)
    (hp : jsParseInt pStr = some p) (hp0 : 0 ≤ p) (hp2 : p ≤ 128)
    (h6net : isIP6 net = true) (h6ip : isIP6 host = true)
    (hnparse : (expandV6Parts net).map (fun part => jsParseHex (jsPadStart part 4 '0')) =
      ngs.map some)
    (hiparse : (expandV6Parts host).map (fun part => jsParseHex (jsPadStart part 4 '0')) =
      igs.map some)
    (hnlen : ngs.length = 8) (hilen : igs.length = 8)
    (hnb : ∀ g ∈ ngs, g < 2 ^ 16) (hib : ∀ g ∈ igs, g < 2 ^ 16) :
    (inCidrV6 (canonV6 ngs) (canonV6 igs) p.toNat →
      ∀ allowedDomains, isUrlAllowed isIP6 hostOf url allowedDomains [cidr] = false) ∧
    (¬ inCidrV6 (canonV6 ngs) (canonV6 igs) p.toNat →
      isUrlAllowed isIP6 hostOf url [] [cidr] = true) := by
  have hiff := isIpInCidr_v6_iff isIP6 host cidr net pStr p ngs igs
    hsplit hcolon hp hp0 hp2 h6net h6ip hnparse hiparse hnlen hilen hnb hib
  have hbm : blockedEntryMatches isIP6 host cidr = isIpInCidr isIP6 host cidr := by
    unfold blockedEntryMatches
    rw [hclower]
    simp [hslash]
  constructor
  · intro hin allowedDomains
    have htrue : isIpInCidr isIP6 host cidr = true := hiff.mpr hin
    unfold isUrlAllowed
    rw [hhost]
    simp [hbm, htrue, hhlower]
  · intro hout
    have hfalse : isIpInCidr isIP6 host cidr = false := by
      rcases hx : isIpInCidr isIP6 host cidr with _ | _
      · rfl
      · exact absurd (hiff.mp hx) hout
    unfold isUrlAllowed
    rw [hhost]
    simp [hbm, hfalse, hhlower]

/-- C5 (amended): CIDR block-list entries block exactly the addresses whose
leading `prefixLength` bits agree with the network address — for IPv4 entries
with `1 ≤ prefixLength ≤ 32` against dotted-quad hostnames (in particular,
block-list `["10.0.0.0/8"]` rejects hostname `10.1.2.3` and allows
`11.1.2.3`), and for IPv6 entries with `0 ≤ prefixLength ≤ 128` whose network
and hostname are both written as (possibly `::`-compressed) hexadecimal
groups.  The two cases the amendment excludes really fail in the code (see the
counterexample): an IPv4 `/0` entry, whose JavaScript shift count wraps modulo
32, and an IPv6 address written with an embedded dotted-quad, whose quad is
misparsed as a single hexadecimal group. -/
theorem c5_amended_cidr_blocking :
    (∀ (isIP6 : String → Bool) (hostOf : String → Option String)
      (url host cidr net pStr : String) (na nb nc nd ia ib ic id2 p : Int),
      hostOf url = some host → jsToLower host = host → jsToLower cidr = cidr →
      jsContainsChar cidr '/' = true → jsSplitChar cidr '/' = [net, pStr] →
      jsContainsChar net '.' = true → jsContainsChar net ':' = false →
      (jsSplitChar net '.').map jsNumber = [some na, some nb, some nc, some nd] →
      (jsSplitChar host '.').map jsNumber = [some ia, some ib, some ic, some id2] →
      0 ≤ na → na < 256 → 0 ≤ nb → nb < 256 → 0 ≤ nc → nc < 256 → 0 ≤ nd → nd < 256 →
      0 ≤ ia → ia < 256 → 0 ≤ ib → ib < 256 → 0 ≤ ic → ic < 256 → 0 ≤ id2 → id2 < 256 →
      jsParseInt pStr = some p → 1 ≤ p → p ≤ 32 →
      (inCidrV4 (canonV4 na.toNat nb.toNat nc.toNat nd.toNat)
          (canonV4 ia.toNat ib.toNat ic.toNat id2.toNat) p.toNat →
        ∀ allowedDomains, isUrlAllowed isIP6 hostOf url allowedDomains [cidr] = false) ∧
      (¬ inCidrV4 (canonV4 na.toNat nb.toNat nc.toNat nd.toNat)
          (canonV4 ia.toNat ib.toNat ic.toNat id2.toNat) p.toNat →
        isUrlAllowed isIP6 hostOf url [] [cidr] = true)) ∧
    (∀ (isIP6 : String → Bool) (hostOf : String → Option String)
      (url host cidr net pStr : String) (p : Int) (ngs igs : List Nat),
      hostOf url = some host → jsToLower host = host → jsToLower cidr = cidr →
      jsContainsChar cidr '/' = true → jsSplitChar cidr '/' = [net, pStr] →
      jsContainsChar net ':' = true →
      jsParseInt pStr = some p → 0 ≤ p → p ≤ 128 →
      isIP6 net = true → isIP6 host = true →
      (expandV6Parts net).map (fun part => jsParseHex (jsPadStart part 4 '0')) =
        ngs.map some →
      (expandV6Parts host).map (fun part => jsParseHex (jsPadStart part 4 '0')) =
        igs.map some →
      ngs.length = 8 → igs.length = 8 →
      (∀ g ∈ ngs, g < 2 ^ 16) → (∀ g ∈ igs, g < 2 ^ 16) →
      (inCidrV6 (canonV6 ngs) (canonV6 igs) p.toNat →
        ∀ allowedDomains, isUrlAllowed isIP6 hostOf url allowedDomains [cidr] = false) ∧
      (¬ inCidrV6 (canonV6 ngs) (canonV6 igs) p.toNat →
        isUrlAllowed isIP6 hostOf url [] [cidr] = true)) := by
  constructor
  · intro isIP6 hostOf url host cidr net pStr na nb nc nd ia ib ic id2 p
      h1 h2 h3 h4 h5 h6 h7 h8 h9 b1 b2 b3 b4 b5 b6 b7 b8 b9 b10 b11 b12 b13 b14 b15 b16
      hp hp1 hp2
    exact isUrlAllowed_v4_cidr isIP6 hostOf url host cidr net pStr na nb nc nd ia ib ic id2 p
      h1 h2 h3 h4 h5 h6 h7 h8 h9 b1 b2 b3 b4 b5 b6 b7 b8 b9 b10 b11 b12 b13 b14 b15 b16
      hp hp1 hp2
  · intro isIP6 hostOf url host cidr net pStr p ngs igs
      h1 h2 h3 h4 h5 h6 hp hp0 hp2 h7 h8 h9 h10 h11 h12 h13 h14
    exact isUrlAllowed_v6_cidr isIP6 hostOf url host cidr net pStr p ngs igs
      h1 h2 h3 h4 h5 h6 hp hp0 hp2 h7 h8 h9 h10 h11 h12 h13 h14

set_option maxRecDepth 100000 in
/-- Counterexample for C5, one instance per address family.  IPv4: the address
`1.2.3.4` lies strictly inside the CIDR range `0.0.0.0/0` (with a 0-bit prefix
every address does), yet the filter does not reject the URL — the JavaScript
mask `-1 << (32 - 0)` wraps its shift count modulo 32 and compares all 32
bits, so the entry never matches.  IPv6: the address `::ffff:1.2.3.4` (the
IPv4-embedded textual form, classified as IPv6 by `net.isIP`) lies strictly
inside `::ffff:0:0/96` — its canonical groups are
`0:0:0:0:0:ffff:0102:0304` and the leading 96 bits agree — yet the filter does
not reject the URL, because `parseInt('1.2.3.4', 16)` reads only the first
digit of the embedded quad and the computed expansion `0:0:0:0:0:0:ffff:1`
disagrees with the network within the first 96 bits. -/
theorem c5_cidr_counterexample :
    (inCidrV4 (canonV4 0 0 0 0) (canonV4 1 2 3 4) 0 ∧
      isUrlAllowed (fun _ => false) (fun _ => some "1.2.3.4") "http://1.2.3.4/"
        [] ["0.0.0.0/0"] = true) ∧
    (inCidrV6 (canonV6 [0, 0, 0, 0, 0, 0xffff, 0, 0])
        (canonV6 [0, 0, 0, 0, 0, 0xffff, 0x0102, 0x0304]) 96 ∧
      isUrlAllowed (fun s => s == "::ffff:0:0" || s == "::ffff:1.2.3.4")
        (fun _ => some "::ffff:1.2.3.4") "http://h/" [] ["::ffff:0:0/96"] = true) := by
  exact ⟨⟨by decide, by decide⟩, ⟨by decide, by decide⟩⟩

/-- Witness for C5 (amended): with block-list `["10.0.0.0/8"]`, hostname
`10.1.2.3` (inside the range) is rejected and `11.1.2.3` (outside) is
allowed; with block-list `["2001:db8::/32"]`, hostname `2001:db8::1` (inside
the range) is rejected and `2001:db9::1` (outside) is allowed. -/
theorem c5_amended_cidr_blocking_witness :
    (isUrlAllowed (fun _ => false) (fun _ => some "10.1.2.3") "http://10.1.2.3/"
        [] ["10.0.0.0/8"] = false ∧
      isUrlAllowed (fun _ => false) (fun _ => some "11.1.2.3") "http://11.1.2.3/"
        [] ["10.0.0.0/8"] = true) ∧
    (isUrlAllowed (fun s => s == "2001:db8::" || s == "2001:db8::1" || s == "2001:db9::1")
        (fun _ => some "2001:db8::1") "http://h1/" [] ["2001:db8::/32"] = false ∧
      isUrlAllowed (fun s => s == "2001:db8::" || s == "2001:db8::1" || s == "2001:db9::1")
        (fun _ => some "2001:db9::1") "http://h2/" [] ["2001:db8::/32"] = true) :=
  ⟨⟨(c5_amended_cidr_blocking.1 (fun _ => false) (fun _ => some "10.1.2.3")
      "http://10.1.2.3/" "10.1.2.3" "10.0.0.0/8" "10.0.0.0" "8"
      10 0 0 0 10 1 2 3 8 rfl (by decide) (by decide) (by decide) (by decide)
      (by decide) (by decide) (by decide) (by decide)
      (by decide) (by decide) (by decide) (by decide) (by decide) (by decide)
      (by decide) (by decide) (by decide) (by decide) (by decide) (by decide)
      (by decide) (by decide) (by decide) (by decide) (by decide)
      (by decide) (by decide)).1 (by decide) [],
    (c5_amended_cidr_blocking.1 (fun _ => false) (fun _ => some "11.1.2.3")
      "http://11.1.2.3/" "11.1.2.3" "10.0.0.0/8" "10.0.0.0" "8"
      10 0 0 0 11 1 2 3 8 rfl (by decide) (by decide) (by decide) (by decide)
      (by decide) (by decide) (by decide) (by decide)
      (by decide) (by decide) (by decide) (by decide) (by decide) (by decide)
      (by decide) (by decide) (by decide) (by decide) (by decide) (by decide)
      (by decide) (by decide) (by decide) (by decide) (by decide)
      (by decide) (by decide)).2 (by decide)⟩,
   ⟨(c5_amended_cidr_blocking.2
      (fun s => s == "2001:db8::" || s == "2001:db8::1" || s == "2001:db9::1")
      (fun _ => some "2001:db8::1") "http://h1/" "2001:db8::1" "2001:db8::/32"
      "2001:db8::" "32" 32 [0x2001, 0x0db8, 0, 0, 0, 0, 0, 0]
      [0x2001, 0x0db8, 0, 0, 0, 0, 0, 1]
      rfl (by decide) (by decide) (by decide) (by decide) (by decide) (by decide)
      (by decide) (by decide) (by decide) (by decide) (by decide) (by decide)
      (by decide) (by decide) (by decide) (by decide)).1 (by decide) [],
    (c5_amended_cidr_blocking.2
      (fun s => s == "2001:db8::" || s == "2001:db8::1" || s == "2001:db9::1")
      (fun _ => some "2001:db9::1") "http://h2/" "2001:db9::1" "2001:db8::/32"
      "2001:db8::" "32" 32 [0x2001, 0x0db8, 0, 0, 0, 0, 0, 0]
      [0x2001, 0x0db9, 0, 0, 0, 0, 0, 1]
      rfl (by decide) (by decide) (by decide) (by decide) (by decide) (by decide)
      (by decide) (by decide) (by decide) (by decide) (by decide) (by decide)
      (by decide) (by decide) (by decide) (by decide)).2 (by decide)⟩⟩

theorem rl_active_pos (phases : List RLPhase) :
    ∀ (i : Nat) (a : RLPhase), phases[i]? = some a → a.active = true →
      1 ≤ (phases.filter RLPhase.active).length := by
  induction phases with
  | nil => intro i a h _; simp at h
  | cons q tl ih =>
    intro i a h ha
    cases i with
    | zero =>
      rw [List.getElem?_cons_zero, Option.some.injEq] at h
      subst h
      simp [List.filter_cons, ha]
    | succ j =>
      rw [List.getElem?_cons_succ] at h
      have h1 := ih j a h ha
      cases hq : RLPhase.active q with
      | false => simpa [List.filter_cons, hq] using h1
      | true =>
        simp only [List.filter_cons, hq, if_true, List.length_cons]
        omega

theorem rl_two_active (phases : List RLPhase) :
    ∀ (i j : Nat) (a b : RLPhase), i ≠ j → phases[i]? = some a → phases[j]? = some b →
      a.active = true → b.active = true →
      2 ≤ (phases.filter RLPhase.active).length := by
  induction phases with
  | nil => intro i j a b _ h _ _ _; simp at h
  | cons q tl ih =>
    intro i j a b hij hi hj ha hb
    cases i with
    | zero =>
      cases j with
      | zero => exact absurd rfl hij
      | succ j2 =>
        rw [List.getElem?_cons_zero, Option.some.injEq] at hi
        rw [List.getElem?_cons_succ] at hj
        subst hi
        have h1 := rl_active_pos tl j2 b hj hb
        simp only [List.filter_cons, ha, if_true, List.length_cons]
        omega
    | succ i2 =>
      cases j with
      | zero =>
        rw [List.getElem?_cons_zero, Option.some.injEq] at hj
        rw [List.getElem?_cons_succ] at hi
        subst hj
        have h1 := rl_active_pos tl i2 a hi ha
        simp only [List.filter_cons, hb, if_true, List.length_cons]
        omega
      | succ j2 =>
        rw [List.getElem?_cons_succ] at hi hj
        have h1 := ih i2 j2 a b (by omega) hi hj ha hb
        cases hq : RLPhase.active q with
        | false => simpa [List.filter_cons, hq] using h1
        | true =>
          simp only [List.filter_cons, hq, if_true, List.length_cons]
          omega

theorem activeCount_set_eq (phases : List RLPhase) :
    ∀ (i : Nat) (old new : RLPhase), phases[i]? = some old →
      ((phases.set i new).filter RLPhase.active).length +
        (if old.active then 1 else 0) =
      (phases.filter RLPhase.active).length + (if new.active then 1 else 0) := by
  induction phases with
  | nil => intro i o n h; simp at h
  | cons q tl ih =>
    intro i o n h
    cases i with
    | zero =>
      rw [List.getElem?_cons_zero, Option.some.injEq] at h
      subst h
      rw [List.set_cons_zero]
      cases hq : RLPhase.active q <;> cases hn : RLPhase.active n <;>
        simp [List.filter_cons, hq, hn]
    | succ j =>
      rw [List.getElem?_cons_succ] at h
      have h1 := ih j o n h
      rw [List.set_cons_succ]
      cases hq : RLPhase.active q with
      | false => simpa [List.filter_cons, hq] using h1
      | true =>
        simp only [List.filter_cons, hq, if_true, List.length_cons]
        omega

theorem rlInv_init (T n t0 : Nat) : RLInv T (rlInit n t0) := by
  refine ⟨Nat.zero_le _, ?_, ?_, ?_, ?_⟩
  · intro t ht
    simp [rlInit] at ht
  · simp [rlInit]
  · have hf : (List.replicate n RLPhase.pending).filter RLPhase.active = [] := by
      rw [List.filter_replicate]
      simp [RLPhase.active]
    simp only [rlInit, hf, List.length_nil]
    omega
  · intro i w h
    simp only [rlInit] at h
    rw [List.getElem?_replicate] at h
    split at h <;> simp at h

theorem rlInv_step (T : Nat) {s s2 : RLState} (e : RLEvent) (hinv : RLInv T s)
    (hstep : rlStep T 1 s e = some s2) : RLInv T s2 := by
  obtain ⟨hlt, hlog, hpw, hact, hslp⟩ := hinv
  cases e with
  | elapse d =>
    simp only [rlStep, Option.some.injEq] at hstep
    subst hstep
    exact ⟨Nat.le_trans hlt (Nat.le_add_right _ _), hlog, hpw, hact, hslp⟩
  | start i =>
    simp only [rlStep] at hstep
    rcases hph : s.phases[i]? with _ | ph
    · rw [hph] at hstep; cases hstep
    · rw [hph] at hstep
      cases ph with
      | sleeping w => cases hstep
      | processing => cases hstep
      | done => cases hstep
      | pending =>
        by_cases hac : activeCount s < 1
        · rw [if_pos hac] at hstep
          have hac0 : (s.phases.filter RLPhase.active).length = 0 := by
            unfold activeCount at hac
            omega
          by_cases hdl : s.time - s.last < T
          · rw [if_pos hdl] at hstep
            simp only [Option.some.injEq] at hstep
            subst hstep
            refine ⟨hlt, hlog, hpw, ?_, ?_⟩
            · have hset := activeCount_set_eq s.phases i RLPhase.pending
                (RLPhase.sleeping (s.last + T)) hph
              simp [RLPhase.active] at hset
              dsimp only
              omega
            · intro j w hj
              by_cases hji : j = i
              · subst hji
                have hilen : j < s.phases.length := by
                  by_contra hge
                  rw [List.getElem?_eq_none (by omega)] at hph
                  cases hph
                rw [List.getElem?_set_self hilen] at hj
                simp only [Option.some.injEq] at hj
                cases hj
                rfl
              · rw [List.getElem?_set_ne (fun hcontra => hji hcontra.symm)] at hj
                exfalso
                have h1 := rl_active_pos s.phases j _ hj rfl
                omega
          · rw [if_neg hdl] at hstep
            simp only [Option.some.injEq] at hstep
            subst hstep
            have hTle : s.last + T ≤ s.time := by omega
            dsimp only [RLInv]
            refine ⟨Nat.le_refl _, ?_, ?_, ?_, ?_⟩
            · intro t ht
              rcases List.mem_append.mp ht with h1 | h1
              · exact Nat.le_trans (hlog t h1) hlt
              · simp at h1
                omega
            · rw [List.pairwise_append]
              refine ⟨hpw, by simp, ?_⟩
              intro a ha b hb
              simp only [List.mem_singleton] at hb
              subst hb
              have h1 := hlog a ha
              omega
            · have hset := activeCount_set_eq s.phases i RLPhase.pending RLPhase.processing hph
              simp [RLPhase.active] at hset
              omega
            · intro j w hj
              by_cases hji : j = i
              · subst hji
                have hilen : j < s.phases.length := by
                  by_contra hge
                  rw [List.getElem?_eq_none (by omega)] at hph
                  cases hph
                rw [List.getElem?_set_self hilen] at hj
                cases hj
              · rw [List.getElem?_set_ne (fun hcontra => hji hcontra.symm)] at hj
                exfalso
                have h1 := rl_active_pos s.phases j _ hj rfl
                omega
        · rw [if_neg hac] at hstep
          cases hstep
  | wake i =>
    simp only [rlStep] at hstep
    rcases hph : s.phases[i]? with _ | ph
    · rw [hph] at hstep; cases hstep
    · rw [hph] at hstep
      cases ph with
      | pending => cases hstep
      | processing => cases hstep
      | done => cases hstep
      | sleeping w =>
        by_cases hw : w ≤ s.time
        · simp only [hw, if_true] at hstep
          rw [Option.some.injEq] at hstep
          subst hstep
          have hwT : w = s.last + T := hslp i w hph
          dsimp only [RLInv]
          refine ⟨Nat.le_refl _, ?_, ?_, ?_, ?_⟩
          · intro t ht
            rcases List.mem_append.mp ht with h1 | h1
            · exact Nat.le_trans (hlog t h1) hlt
            · simp at h1
              omega
          · rw [List.pairwise_append]
            refine ⟨hpw, by simp, ?_⟩
            intro a ha b hb
            simp only [List.mem_singleton] at hb
            subst hb
            have h1 := hlog a ha
            omega
          · have hset := activeCount_set_eq s.phases i (RLPhase.sleeping w) RLPhase.processing hph
            simp [RLPhase.active] at hset
            omega
          · intro j w2 hj
            by_cases hji : j = i
            · subst hji
              have hilen : j < s.phases.length := by
                by_contra hge
                rw [List.getElem?_eq_none (by omega)] at hph
                cases hph
              rw [List.getElem?_set_self hilen] at hj
              cases hj
            · rw [List.getElem?_set_ne (fun hcontra => hji hcontra.symm)] at hj
              exfalso
              have h2 := rl_two_active s.phases i j (RLPhase.sleeping w) (RLPhase.sleeping w2)
                (fun hcontra => hji hcontra.symm) hph hj rfl rfl
              omega
        · simp [hw] at hstep
  | finish i =>
    simp only [rlStep] at hstep
    rcases hph : s.phases[i]? with _ | ph
    · rw [hph] at hstep; cases hstep
    · rw [hph] at hstep
      cases ph with
      | pending => cases hstep
      | sleeping w => cases hstep
      | done => cases hstep
      | processing =>
        simp only [Option.some.injEq] at hstep
        subst hstep
        refine ⟨hlt, hlog, hpw, ?_, ?_⟩
        · have hset := activeCount_set_eq s.phases i RLPhase.processing RLPhase.done hph
          simp [RLPhase.active] at hset
          dsimp only
          omega
        · intro j w hj
          by_cases hji : j = i
          · subst hji
            have hilen : j < s.phases.length := by
              by_contra hge
              rw [List.getElem?_eq_none (by omega)] at hph
              cases hph
            rw [List.getElem?_set_self hilen] at hj
            cases hj
          · rw [List.getElem?_set_ne (fun hcontra => hji hcontra.symm)] at hj
            exact hslp j w hj


theorem rlInv_of_reach (T : Nat) {s : RLState} (h : RLReach T 1 s) : RLInv T s := by
  induction h with
  | init n t0 => exact rlInv_init T n t0
  | step e _ hstep ih => exact rlInv_step T e ih hstep

/-- C2 (amended): when the per-domain concurrency limit `D` is 1 — so the
domain queue serializes each task's read-sleep-write of `domainLastRequest` —
any two dispatch timestamps logged for the same hostname, in chronological
order, are at least `T` milliseconds apart, for every reachable state and
regardless of the global concurrency limit (a global limit only removes
interleavings, it enables none).  With the shipped `maxConcurrentPerDomain =
2` the original claim fails: see the counterexample, where two tasks sleep on
the same stale timestamp and dispatch simultaneously. -/
theorem c2_amended_same_domain_delay_with_serial_queue (T : Nat) {s : RLState}
    (h : RLReach T 1 s) : List.Pairwise (fun a b => a + T ≤ b) s.log :=
  (rlInv_of_reach T h).2.2.1

/-- Witness for C2 (amended): with `T = 1000` and a serialized domain queue,
a run of two same-hostname tasks — the second forced to sleep — logs
dispatches 5000 and 6000, which are 1000 apart. -/
theorem c2_amended_same_domain_delay_witness :
    List.Pairwise (fun a b => a + 1000 ≤ b) [5000, 6000] := by
  have h0 : RLReach 1000 1 (rlInit 2 5000) := RLReach.init 2 5000
  have h1 : RLReach 1000 1
      ⟨5000, 5000, [RLPhase.processing, RLPhase.pending], [5000]⟩ :=
    RLReach.step (RLEvent.start 0) h0 (by decide)
  have h2 : RLReach 1000 1
      ⟨5000, 5000, [RLPhase.done, RLPhase.pending], [5000]⟩ :=
    RLReach.step (RLEvent.finish 0) h1 (by decide)
  have h3 : RLReach 1000 1
      ⟨5000, 5000, [RLPhase.done, RLPhase.sleeping 6000], [5000]⟩ :=
    RLReach.step (RLEvent.start 1) h2 (by decide)
  have h4 : RLReach 1000 1
      ⟨6000, 5000, [RLPhase.done, RLPhase.sleeping 6000], [5000]⟩ :=
    RLReach.step (RLEvent.elapse 1000) h3 (by decide)
  have h5 : RLReach 1000 1
      ⟨6000, 6000, [RLPhase.done, RLPhase.processing], [5000, 6000]⟩ :=
    RLReach.step (RLEvent.wake 1) h4 (by decide)
  exact c2_amended_same_domain_delay_with_serial_queue 1000 h5

/-- Counterexample for C2: with the shipped per-domain limit `D = 2` (and any
global limit allowing two concurrent tasks, such as the shipped 4), a valid
schedule of three same-hostname tasks dispatches two of them at the same
instant: tasks 1 and 2 both read the stale `domainLastRequest = 5000` before
either has written it, both sleep until 6000, and both dispatch at 6000 —
0 ms apart, violating the claimed `T = 1000` spacing. -/
theorem c2_domain_delay_counterexample :
    rlRun 1000 2 (rlInit 3 5000)
      [RLEvent.start 0, RLEvent.start 1, RLEvent.finish 0, RLEvent.start 2,
       RLEvent.elapse 1000, RLEvent.wake 1, RLEvent.wake 2] =
      some ⟨6000, 6000, [RLPhase.done, RLPhase.processing, RLPhase.processing],
        [5000, 6000, 6000]⟩ ∧
    ¬ List.Pairwise (fun a b => a + 1000 ≤ b) [5000, 6000, 6000] := by
  exact ⟨by decide, by decide⟩
